import Mathlib

/-!
Shallow embedding of `src/viewstate/parse.py` (irsdl/viewstate): a recursive-descent
decoder for the ASP.NET "Limited Object Serialization" binary format, together with
proofs about the claims of the specification.

Byte strings are modelled as `List Nat` (each element a byte value 0-255, as produced
by Python `bytes` indexing).  Python exceptions are modelled by an explicit error type:
`ViewStateException` raise sites are distinguished by their message, and uncaught host
exceptions (`IndexError` from out-of-range sequence indexing, `TypeError` from an
unhashable dict key, `OverflowError` from an out-of-range datetime) are separate
constructors, since they escape the `ViewStateException` family.
-/

namespace ViewState

/-- The distinct `ViewStateException` raise sites of `parse.py`, identified by their
message strings. -/
inductive VSMsg where
  /-- "Unexpected end of data while reading 7-bit encoded int" (`read_7bit_encoded_int`) -/
  | endOfData7bit
  /-- "Unexpected end of data while parsing integer" (inline varint loop of `Integer.parse`) -/
  | endOfDataInteger
  /-- "Not enough bytes for int32" (`read_int32`) -/
  | notEnoughInt32
  /-- "Not enough bytes for int64" (`read_int64`) -/
  | notEnoughInt64
  /-- "Not enough bytes for double" (`read_double`) -/
  | notEnoughDouble
  /-- "Not enough bytes for float" (`read_float`) -/
  | notEnoughFloat
  /-- "No data to parse" (`Parser.parse` on an empty buffer) -/
  | noData
  /-- "Unknown marker 0x??" (`Parser.parse`, no registered rule), carrying the byte -/
  | unknownMarker (m : Nat)
  /-- "Invalid marker for <cls>" (each rule re-validating its own marker byte) -/
  | invalidMarker (cls : String)
  /-- "Not enough bytes for string" (`StringValue.parse`) -/
  | notEnoughString
  /-- "Invalid type reference index" (`TypeValue.parse`, caught `IndexError`) -/
  | invalidTypeRefIndex
  /-- "Invalid string reference index" (`IndexedString.parse`, caught `IndexError`) -/
  | invalidStringRefIndex
  /-- "No data for IndexedString reference" (`IndexedString.parse`) -/
  | noDataIndexedStringRef
  /-- "Invalid index in sparse array" (`SparseArray.parse`) -/
  | invalidSparseIndex
  /-- "Not enough data for binary formatted object" (`BinaryFormatted.parse`) -/
  | notEnoughBinary
  /-- "Not a valid ASP.NET 2.0 LOS stream" (`parse_viewstate` header check) -/
  | invalidHeader
  /-- "Invalid trailing bytes length: n" (`parse_viewstate`), carrying the length -/
  | invalidTrailer (n : Nat)
  deriving DecidableEq

/-- How a decode call can fail: a `ViewStateException`, or an uncaught host
exception escaping the `ViewStateException` family. `outOfFuel` is an artifact of
the fuel-indexed embedding of the recursive dispatcher and is proven unreachable
for the canonical fuel choice. -/
inductive PyErr where
  /-- `ViewStateException` with the given message -/
  | vse (m : VSMsg)
  /-- uncaught host `IndexError` (unguarded `b[i]` with `i ≥ len(b)`) -/
  | indexError
  /-- uncaught host `TypeError` (`d[key] = value` with an unhashable key) -/
  | typeError
  /-- uncaught host `OverflowError` (`datetime(1,1,1) + timedelta(...)` out of range) -/
  | overflowError
  /-- embedding artifact: fuel of the fuel-indexed dispatcher ran out -/
  | outOfFuel
  deriving DecidableEq

/-- The Python values the decoder can produce.  Scalar strings cover every rule that
returns a formatted `str` in the source.  IEEE754 floats are kept as their raw
little-endian byte runs; their numeric reading, which Python dict keys compare by,
is recovered exactly by `decodeFloatBits` below.  `unitStr d i` stands for the
Python string `"Unit(<str(double)>, <i>)"` with the float repr abstracted, and
`binaryStr p` for `"BinaryFormatted(<repr(bytes p)>)"`; the bytes repr is injective
so `binaryStr` equality coincides with Python string equality, while `unitStr`
equality at the byte level is an abstraction (it distinguishes NaN payload variants
that `str` would both format as "nan"). -/
inductive Value where
  /-- Python `None` (from `Noop`, `NoneConst`, or a collapsed `FormattedString`) -/
  | none
  /-- Python `bool` (from `TrueConst` / `FalseConst`) -/
  | bool (b : Bool)
  /-- Python non-negative `int` (from `Integer`, `ByteValue`, `ZeroConst`) -/
  | int (n : Nat)
  /-- Python `str` -/
  | str (s : String)
  /-- `datetime(1,1,1) + timedelta(microseconds=ticks // 10)`, by its microsecond offset -/
  | datetime (microseconds : Nat)
  /-- Python `float` from 8 little-endian bytes (`read_double`), kept raw -/
  | double (raw : List Nat)
  /-- Python `float` from 4 little-endian bytes (`read_float`), kept raw -/
  | float (raw : List Nat)
  /-- Python 2-tuple (from `PairValue`) -/
  | pair (fst snd : Value)
  /-- Python 3-tuple (from `TripletValue`) -/
  | triplet (fst snd trd : Value)
  /-- Python `list` (from `TypedArray`, `StringArray`, `ListValue`, `SparseArray`) -/
  | list (elems : List Value)
  /-- Python `dict` in insertion order (from `DictValue`) -/
  | dict (entries : List (Value × Value))
  /-- the Python string `"Unit(<str(float of raw)>, <i>)"` (from `UnitValue`) -/
  | unitStr (raw : List Nat) (i : Nat)
  /-- the Python string `"BinaryFormatted(<repr of payload bytes>)"` (from `BinaryFormatted`) -/
  | binaryStr (payload : List Nat)

/-- `int.from_bytes(_, byteorder='little', signed=False)`. -/
def fromLE : List Nat → Nat
  | [] => 0
  | x :: xs => x + 256 * fromLE xs

/-- The reading of an IEEE754 bit pattern: an exact rational for a finite value,
or one of the three non-finite classes. -/
inductive FloatVal where
  | finite (q : Rat)
  | posInf
  | negInf
  | nan
  deriving DecidableEq

/-- Exact numeric reading of an IEEE754 bit pattern with `fracBits` mantissa bits,
`expBits` exponent bits and exponent bias `bias` (52/11/1023 for the doubles of
`struct.unpack('<d', _)`, 23/8/127 for the floats of `struct.unpack('<f', _)`; a
decoded float32 is widened to a Python float with the identical value, so both
read to the same rational).  Finite values, subnormals included, are represented
exactly: a rational is `±mant · 2^e`. -/
def decodeFloatBits (fracBits expBits bias bits : Nat) : FloatVal :=
  let frac := bits % 2 ^ fracBits
  let exp := (bits >>> fracBits) % 2 ^ expBits
  let sign : Int := if (bits >>> (fracBits + expBits)) % 2 = 1 then -1 else 1
  if exp = 2 ^ expBits - 1 then
    if frac = 0 then (if sign = 1 then .posInf else .negInf) else .nan
  else
    let mant : Int := if exp = 0 then frac else 2 ^ fracBits + frac
    let e : Int := (if exp = 0 then 1 else (exp : Int)) - ((bias : Int) + (fracBits : Int))
    .finite (if 0 ≤ e then mkRat (sign * mant * ((2 ^ e.toNat : Nat) : Int)) 1
             else mkRat (sign * mant) (2 ^ (-e).toNat))

/-- Canonical form of a Python value used as a `dict` key.  Python `==` on the
hashable decodable values is: exact numeric equality across `bool`/`int`/`float`
(`True == 1`, `0 == 0.0 == -0.0`, a float32 equals the double of the same value),
so all numbers canonicalize to `num` of their exact rational value; the two
infinities are their own classes; NaN is a class that compares unequal to
everything, itself included (every decoded key is a fresh object, so CPython's
identity shortcut never applies); strings and datetimes compare within their type;
tuples compare componentwise.  Python `list` and `dict` values are unhashable —
`d[key] = value` raises `TypeError` before any equality test — so they collapse to
an `unhashable` marker never consulted in a reachable execution.  `unitStr` and
`binaryStr` stand for formatted strings and compare at the byte level (exact for
`binaryStr`; an abstraction for `unitStr`, whose float repr conflates NaN payload
variants). -/
inductive PyKey where
  | none
  | num (q : Rat)
  | str (s : String)
  | datetime (microseconds : Nat)
  | posInf
  | negInf
  | nan
  | pair (fst snd : PyKey)
  | triplet (fst snd trd : PyKey)
  | unitStr (raw : List Nat) (i : Nat)
  | binaryStr (payload : List Nat)
  | unhashable
  deriving DecidableEq

/-- A decoded IEEE754 value as a canonical key. -/
def keyOfFloat : FloatVal → PyKey
  | .finite q => .num q
  | .posInf => .posInf
  | .negInf => .negInf
  | .nan => .nan

/-- The canonical key of a value: booleans and integers become their exact
rational value (Python `True == 1`, `False == 0`), floats and doubles are read to
their exact IEEE754 value (`num`, `posInf`, `negInf` or `nan`), tuples are
canonicalized componentwise, unhashable values are collapsed. -/
def pyKey : Value → PyKey
  | .none => .none
  | .bool b => .num (if b then 1 else 0)
  | .int n => .num (mkRat n 1)
  | .str s => .str s
  | .datetime m => .datetime m
  | .double r => keyOfFloat (decodeFloatBits 52 11 1023 (fromLE r))
  | .float r => keyOfFloat (decodeFloatBits 23 8 127 (fromLE r))
  | .pair a b => .pair (pyKey a) (pyKey b)
  | .triplet a b c => .triplet (pyKey a) (pyKey b) (pyKey c)
  | .list _ => .unhashable
  | .dict _ => .unhashable
  | .unitStr r i => .unitStr r i
  | .binaryStr p => .binaryStr p

/-- Python `==` on canonical keys: equality of the class and value, except that
`nan` compares unequal to everything — itself included (`nan != nan`; the keys the
decoder produces are fresh objects, so CPython's identity shortcut cannot fire).
Tuples compare componentwise with `==`, so a tuple containing a NaN is also never
equal.  A true comparison forces the two canonical keys to be identical and
NaN-free. -/
def pyKeyEq : PyKey → PyKey → Bool
  | .none, .none => true
  | .num a, .num b => decide (a = b)
  | .str a, .str b => decide (a = b)
  | .datetime a, .datetime b => decide (a = b)
  | .posInf, .posInf => true
  | .negInf, .negInf => true
  | .nan, .nan => false
  | .pair a b, .pair c d => pyKeyEq a c && pyKeyEq b d
  | .triplet a b c, .triplet d e f => pyKeyEq a d && pyKeyEq b e && pyKeyEq c f
  | .unitStr r i, .unitStr r' i' => decide (r = r') && decide (i = i')
  | .binaryStr p, .binaryStr q => decide (p = q)
  | _, _ => false

/-- Python hashability of a decodable value: `list` and `dict` are unhashable, a
tuple is hashable iff its components are, everything else the decoder can produce
is hashable. -/
def hashable : Value → Bool
  | .list _ => false
  | .dict _ => false
  | .pair a b => hashable a && hashable b
  | .triplet a b c => hashable a && hashable b && hashable c
  | _ => true

/-- `ParserContext`: the two append-only back-reference tables, holding the decoded
type-name strings and indexed strings in first-seen order. -/
structure ParserContext where
  type_table : List String
  string_table : List String

/-- The fresh context `ParserContext()` built by `parse_viewstate`. -/
def ParserContext.empty : ParserContext := ⟨[], []⟩

/-- `ctx.get_type(idx)`: Python list indexing; `none` models the `IndexError` the
caller catches. (Indices come from unsigned reads, so Python's negative-index
semantics cannot arise.) -/
def ParserContext.get_type (ctx : ParserContext) (idx : Nat) : Option String :=
  ctx.type_table.get? idx

/-- `ctx.get_string(idx)`: Python list indexing; `none` models the `IndexError` the
caller catches. -/
def ParserContext.get_string (ctx : ParserContext) (idx : Nat) : Option String :=
  ctx.string_table.get? idx

/-- `ctx.add_type(t)`: append at the end of the type table. -/
def ParserContext.add_type (ctx : ParserContext) (t : String) : ParserContext :=
  { ctx with type_table := ctx.type_table ++ [t] }

/-- `ctx.add_string(s)`: append at the end of the string table. -/
def ParserContext.add_string (ctx : ParserContext) (s : String) : ParserContext :=
  { ctx with string_table := ctx.string_table ++ [s] }

/-- "table `l₂` extends table `l₁` by appending at the end": the cumulative effect of
zero or more `append` operations. -/
def TableLE (l₁ l₂ : List String) : Prop := ∃ t, l₂ = l₁ ++ t

theorem tableLE_refl (l : List String) : TableLE l l := ⟨[], by simp⟩

theorem tableLE_trans {a b c : List String} (h₁ : TableLE a b) (h₂ : TableLE b c) :
    TableLE a c := by
  obtain ⟨t₁, rfl⟩ := h₁
  obtain ⟨t₂, rfl⟩ := h₂
  exact ⟨t₁ ++ t₂, by simp⟩

theorem tableLE_append (l : List String) (x : String) : TableLE l (l ++ [x]) := ⟨[x], rfl⟩

/-- Both context tables only grow by appending. -/
def CtxLE (c c' : ParserContext) : Prop :=
  TableLE c.type_table c'.type_table ∧ TableLE c.string_table c'.string_table

theorem ctxLE_refl (c : ParserContext) : CtxLE c c :=
  ⟨tableLE_refl _, tableLE_refl _⟩

theorem ctxLE_trans {a b c : ParserContext} (h₁ : CtxLE a b) (h₂ : CtxLE b c) :
    CtxLE a c := ⟨tableLE_trans h₁.1 h₂.1, tableLE_trans h₁.2 h₂.2⟩

/-- The 7-bit varint loop shared by `read_7bit_encoded_int` and the inline copy in
`Integer.parse` (which differ only in the message they raise at end of input):
little-endian 7-bit groups, accumulated with `n |= (tmp & 0x7F) << shift`, a set
high bit meaning more groups follow. -/
def sevenBitLoop (err : PyErr) : List Nat → Nat → Nat → Except PyErr (Nat × List Nat)
  | [], _, _ => .error err
  | tmp :: rest, n, shift =>
    let n' := n ||| ((tmp &&& 0x7F) <<< shift)
    if tmp &&& 0x80 = 0 then .ok (n', rest)
    else sevenBitLoop err rest n' (shift + 7)

/-- `read_7bit_encoded_int(b)`. -/
def read_7bit_encoded_int (b : List Nat) : Except PyErr (Nat × List Nat) :=
  sevenBitLoop (.vse .endOfData7bit) b 0 0

/-- `read_int32(b)`: 4-byte unsigned little-endian. -/
def read_int32 (b : List Nat) : Except PyErr (Nat × List Nat) :=
  if b.length < 4 then .error (.vse .notEnoughInt32)
  else .ok (fromLE (b.take 4), b.drop 4)

/-- `read_int64(b)`: 8-byte unsigned little-endian. -/
def read_int64 (b : List Nat) : Except PyErr (Nat × List Nat) :=
  if b.length < 8 then .error (.vse .notEnoughInt64)
  else .ok (fromLE (b.take 8), b.drop 8)

/-- `read_double(b)`: 8 bytes; the IEEE754 reading is kept as the raw byte run. -/
def read_double (b : List Nat) : Except PyErr (List Nat × List Nat) :=
  if b.length < 8 then .error (.vse .notEnoughDouble)
  else .ok (b.take 8, b.drop 8)

/-- `read_float(b)`: 4 bytes; the IEEE754 reading is kept as the raw byte run. -/
def read_float (b : List Nat) : Except PyErr (List Nat × List Nat) :=
  if b.length < 4 then .error (.vse .notEnoughFloat)
  else .ok (b.take 4, b.drop 4)

/-- The module-level `COLORS` dict of `parse.py` (the local definition that shadows
the import): indices 0-4. -/
def COLORS : Nat → Option String
  | 0 => some "Black"
  | 1 => some "White"
  | 2 => some "Red"
  | 3 => some "Green"
  | 4 => some "Blue"
  | _ => none

/-- U+FFFD, the replacement character emitted by `errors='replace'`. -/
def repChar : Char := Char.ofNat 0xFFFD

/-- CPython's UTF-8 decoder with the `replace` error handler: valid sequences decode
normally (overlong forms, surrogates and values above U+10FFFF rejected), and each
maximal subpart of an ill-formed sequence becomes one U+FFFD.  The fuel is
decremented once per emitted character while at least one byte is consumed, so
fuel = length of the byte run is always sufficient. -/
def utf8Go : Nat → List Nat → List Char
  | 0, _ => []
  | _+1, [] => []
  | fuel+1, b :: rest =>
    if b < 0x80 then Char.ofNat b :: utf8Go fuel rest
    else if b < 0xC2 then repChar :: utf8Go fuel rest
    else if b < 0xE0 then
      match rest with
      | [] => [repChar]
      | c :: rest2 =>
        if 0x80 ≤ c ∧ c < 0xC0 then
          Char.ofNat (((b - 0xC0) <<< 6) + (c - 0x80)) :: utf8Go fuel rest2
        else repChar :: utf8Go fuel rest
    else if b < 0xF0 then
      match rest with
      | [] => [repChar]
      | c :: rest2 =>
        if (if b = 0xE0 then 0xA0 else 0x80) ≤ c ∧ c < (if b = 0xED then 0xA0 else 0xC0) then
          match rest2 with
          | [] => [repChar]
          | d :: rest3 =>
            if 0x80 ≤ d ∧ d < 0xC0 then
              Char.ofNat (((b - 0xE0) <<< 12) + ((c - 0x80) <<< 6) + (d - 0x80)) ::
                utf8Go fuel rest3
            else repChar :: utf8Go fuel rest2
        else repChar :: utf8Go fuel rest
    else if b < 0xF5 then
      match rest with
      | [] => [repChar]
      | c :: rest2 =>
        if (if b = 0xF0 then 0x90 else 0x80) ≤ c ∧ c < (if b = 0xF4 then 0x90 else 0xC0) then
          match rest2 with
          | [] => [repChar]
          | d :: rest3 =>
            if 0x80 ≤ d ∧ d < 0xC0 then
              match rest3 with
              | [] => [repChar]
              | e :: rest4 =>
                if 0x80 ≤ e ∧ e < 0xC0 then
                  Char.ofNat (((b - 0xF0) <<< 18) + ((c - 0x80) <<< 12) +
                      ((d - 0x80) <<< 6) + (e - 0x80)) :: utf8Go fuel rest4
                else repChar :: utf8Go fuel rest3
            else repChar :: utf8Go fuel rest2
        else repChar :: utf8Go fuel rest
    else repChar :: utf8Go fuel rest

/-- `bs.decode('utf-8', errors='replace')`: never fails. -/
def decodeUtf8Replace (bs : List Nat) : String := String.mk (utf8Go bs.length bs)

/-- Result of one decode rule: the produced value, the remaining bytes, and the
(possibly extended) context — or a raised exception. -/
abbrev Res := Except PyErr (Value × List Nat × ParserContext)

/-- `Noop.parse` (marker 0x01): returns `None, b[1:]` without re-checking the marker. -/
def Noop.parse (b : List Nat) (ctx : ParserContext) : Res :=
  .ok (.none, b.drop 1, ctx)

/-- `NoneConst.parse` (marker 0x64): `Const.parse` returns `cls.const, b[1:]`. -/
def NoneConst.parse (b : List Nat) (ctx : ParserContext) : Res :=
  .ok (.none, b.drop 1, ctx)

/-- `EmptyConst.parse` (marker 0x65): the empty string. -/
def EmptyConst.parse (b : List Nat) (ctx : ParserContext) : Res :=
  .ok (.str "", b.drop 1, ctx)

/-- `ZeroConst.parse` (marker 0x66): the integer 0. -/
def ZeroConst.parse (b : List Nat) (ctx : ParserContext) : Res :=
  .ok (.int 0, b.drop 1, ctx)

/-- `TrueConst.parse` (marker 0x67). -/
def TrueConst.parse (b : List Nat) (ctx : ParserContext) : Res :=
  .ok (.bool true, b.drop 1, ctx)

/-- `FalseConst.parse` (marker 0x68). -/
def FalseConst.parse (b : List Nat) (ctx : ParserContext) : Res :=
  .ok (.bool false, b.drop 1, ctx)

/-- `Integer.parse` (marker 0x02): re-validates its marker, then runs its own inline
copy of the varint loop (with its own end-of-data message). -/
def Integer.parse (b : List Nat) (ctx : ParserContext) : Res :=
  match b with
  | [] => .error .indexError
  | m :: b =>
    if m ≠ 0x02 then .error (.vse (.invalidMarker "Integer")) else
    match sevenBitLoop (.vse .endOfDataInteger) b 0 0 with
    | .error e => .error e
    | .ok (n, rest) => .ok (.int n, rest, ctx)

/-- `ByteValue.parse` (marker 0x03): `return b[1], b[2:]` — the payload access
`b[1]` is unguarded, so a one-byte buffer raises a host `IndexError`. -/
def ByteValue.parse (b : List Nat) (ctx : ParserContext) : Res :=
  match b with
  | [] => .error .indexError
  | m :: rest =>
    if m ≠ 0x03 then .error (.vse (.invalidMarker "Byte")) else
    match rest with
    | [] => .error .indexError
    | x :: rest2 => .ok (.int x, rest2, ctx)

/-- `CharValue.parse` (marker 0x04): `return chr(b[1]), b[2:]` — `b[1]` unguarded as
in `ByteValue`.  Byte values are below 256, so `Char.ofNat` is exact. -/
def CharValue.parse (b : List Nat) (ctx : ParserContext) : Res :=
  match b with
  | [] => .error .indexError
  | m :: rest =>
    if m ≠ 0x04 then .error (.vse (.invalidMarker "Char")) else
    match rest with
    | [] => .error .indexError
    | x :: rest2 => .ok (.str (String.mk [Char.ofNat x]), rest2, ctx)

/-- Core of `StringValue.parse` (marker 0x05): varint length, then that many bytes
lossily UTF-8-decoded; zero length short-circuits.  (The source's `n < 0` check is
unreachable: the varint is unsigned.)  The context is never touched. -/
def StringValue.parseStr (b : List Nat) : Except PyErr (String × List Nat) :=
  match b with
  | [] => .error .indexError
  | m :: b =>
    if m ≠ 0x05 then .error (.vse (.invalidMarker "String")) else
    match read_7bit_encoded_int b with
    | .error e => .error e
    | .ok (n, b) =>
      if n = 0 then .ok ("", b)
      else if b.length < n then .error (.vse .notEnoughString)
      else .ok (decodeUtf8Replace (b.take n), b.drop n)

/-- `StringValue.parse` as a registered rule (wrapping the string into a value). -/
def StringValue.parse (b : List Nat) (ctx : ParserContext) : Res :=
  match StringValue.parseStr b with
  | .error e => .error e
  | .ok (s, rest) => .ok (.str s, rest, ctx)

/-- Microseconds from 0001-01-01T00:00:00 to 9999-12-31T23:59:59.999999, the
largest offset `datetime(1,1,1) + timedelta(microseconds=_)` accepts before
raising `OverflowError`. -/
def maxDatetimeMicroseconds : Nat := 315537897599999999

/-- `DateTimeValue.parse` (marker 0x06): 8-byte tick count;
`parse_dotnet_datetime` adds `ticks // 10` microseconds to `datetime(1,1,1)`,
raising a host `OverflowError` beyond year 9999. -/
def DateTimeValue.parse (b : List Nat) (ctx : ParserContext) : Res :=
  match b with
  | [] => .error .indexError
  | m :: b =>
    if m ≠ 0x06 then .error (.vse (.invalidMarker "DateTime")) else
    match read_int64 b with
    | .error e => .error e
    | .ok (ticks, rest) =>
      if ticks / 10 > maxDatetimeMicroseconds then .error .overflowError
      else .ok (.datetime (ticks / 10), rest, ctx)

/-- `DoubleValue.parse` (marker 0x07). -/
def DoubleValue.parse (b : List Nat) (ctx : ParserContext) : Res :=
  match b with
  | [] => .error .indexError
  | m :: b =>
    if m ≠ 0x07 then .error (.vse (.invalidMarker "Double")) else
    match read_double b with
    | .error e => .error e
    | .ok (raw, rest) => .ok (.double raw, rest, ctx)

/-- `FloatValue.parse` (marker 0x08). -/
def FloatValue.parse (b : List Nat) (ctx : ParserContext) : Res :=
  match b with
  | [] => .error .indexError
  | m :: b =>
    if m ≠ 0x08 then .error (.vse (.invalidMarker "Float")) else
    match read_float b with
    | .error e => .error e
    | .ok (raw, rest) => .ok (.float raw, rest, ctx)

/-- `RGBA.parse` (marker 0x09): 32-bit little-endian integer decomposed as
A:R:G:B from the high byte down, formatted as a Python string. -/
def RGBA.parse (b : List Nat) (ctx : ParserContext) : Res :=
  match b with
  | [] => .error .indexError
  | m :: b =>
    if m ≠ 0x09 then .error (.vse (.invalidMarker "RGBA")) else
    match read_int32 b with
    | .error e => .error e
    | .ok (val, rest) =>
      let a := (val >>> 24) &&& 0xFF
      let r := (val >>> 16) &&& 0xFF
      let g := (val >>> 8) &&& 0xFF
      let blue := val &&& 0xFF
      .ok (.str ("RGBA(" ++ toString r ++ ", " ++ toString g ++ ", " ++ toString blue ++
        ", " ++ toString a ++ ")"), rest, ctx)

/-- `KnownColor.parse` (marker 0x0A): varint index into `COLORS`; a missing index
(`KeyError`) is caught and mapped to "Unknown". -/
def KnownColor.parse (b : List Nat) (ctx : ParserContext) : Res :=
  match b with
  | [] => .error .indexError
  | m :: b =>
    if m ≠ 0x0A then .error (.vse (.invalidMarker "KnownColor")) else
    match read_7bit_encoded_int b with
    | .error e => .error e
    | .ok (idx, rest) =>
      .ok (.str ("KnownColor: " ++ (COLORS idx).getD "Unknown"), rest, ctx)

/-- Core of `TypeValue.parse` (marker 0x19), returning the type-name string.  If
the next byte is the 0x2B reference sub-marker, a varint indexes the type table
(`IndexError` caught and re-raised as "Invalid type reference index"); otherwise a
string production is read and appended to the type table.  The sub-marker peek
`b[0]` is unguarded. -/
def TypeValue.parseStr (b : List Nat) (ctx : ParserContext) :
    Except PyErr (String × List Nat × ParserContext) :=
  match b with
  | [] => .error .indexError
  | m :: b =>
    if m ≠ 0x19 then .error (.vse (.invalidMarker "Type")) else
    match b with
    | [] => .error .indexError
    | x :: b' =>
      if x = 0x2B then
        match read_7bit_encoded_int b' with
        | .error e => .error e
        | .ok (idx, rest) =>
          match ctx.get_type idx with
          | some t => .ok (t, rest, ctx)
          | none => .error (.vse .invalidTypeRefIndex)
      else
        match StringValue.parseStr (x :: b') with
        | .error e => .error e
        | .ok (s, rest) => .ok (s, rest, ctx.add_type s)

/-- `TypeValue.parse` as a registered rule (the returned Python `str` is the value). -/
def TypeValue.parse (b : List Nat) (ctx : ParserContext) : Res :=
  match TypeValue.parseStr b ctx with
  | .error e => .error e
  | .ok (s, rest, ctx') => .ok (.str s, rest, ctx')

/-- `EnumValue.parse` (marker 0x0B): a type production (invoked directly on
`TypeValue`, so the next byte must be 0x19), then a varint, formatted as a string. -/
def EnumValue.parse (b : List Nat) (ctx : ParserContext) : Res :=
  match b with
  | [] => .error .indexError
  | m :: b =>
    if m ≠ 0x0B then .error (.vse (.invalidMarker "Enum")) else
    match TypeValue.parseStr b ctx with
    | .error e => .error e
    | .ok (typeRef, b, ctx) =>
      match read_7bit_encoded_int b with
      | .error e => .error e
      | .ok (n, rest) =>
        .ok (.str ("Enum(" ++ typeRef ++ ", " ++ toString n ++ ")"), rest, ctx)

/-- `ColorEmpty.parse` (marker 0x0C). -/
def ColorEmpty.parse (b : List Nat) (ctx : ParserContext) : Res :=
  match b with
  | [] => .error .indexError
  | m :: rest =>
    if m ≠ 0x0C then .error (.vse (.invalidMarker "Color.Empty")) else
    .ok (.str "Color.Empty", rest, ctx)

/-- `UnitValue.parse` (marker 0x1B): a double and a 4-byte integer, formatted as the
Python string `"Unit(<float>, <int>)"` (kept structured, the float repr abstracted). -/
def UnitValue.parse (b : List Nat) (ctx : ParserContext) : Res :=
  match b with
  | [] => .error .indexError
  | m :: b =>
    if m ≠ 0x1B then .error (.vse (.invalidMarker "Unit")) else
    match read_double b with
    | .error e => .error e
    | .ok (raw, b) =>
      match read_int32 b with
      | .error e => .error e
      | .ok (i, rest) => .ok (.unitStr raw i, rest, ctx)

/-- `UnitEmpty.parse` (marker 0x1C): the literal Python string "Unit(0, 0)". -/
def UnitEmpty.parse (b : List Nat) (ctx : ParserContext) : Res :=
  match b with
  | [] => .error .indexError
  | m :: rest =>
    if m ≠ 0x1C then .error (.vse (.invalidMarker "Unit.Empty")) else
    .ok (.str "Unit(0, 0)", rest, ctx)

/-- `IndexedString.parse` (markers 0x1E and 0x1F): for 0x1F one raw byte indexes the
string table (`IndexError` caught, re-raised as "Invalid string reference index");
any other consumed marker byte falls into the 0x1E branch, reading a new string and
appending it to the string table before returning it. -/
def IndexedString.parse (b : List Nat) (ctx : ParserContext) : Res :=
  match b with
  | [] => .error .indexError
  | token :: b =>
    if token = 0x1F then
      match b with
      | [] => .error (.vse .noDataIndexedStringRef)
      | idx :: rest =>
        match ctx.get_string idx with
        | some s => .ok (.str s, rest, ctx)
        | none => .error (.vse .invalidStringRefIndex)
    else
      match StringValue.parseStr b with
      | .error e => .error e
      | .ok (s, rest) => .ok (.str s, rest, ctx.add_string s)

/-- `BinaryFormatted.parse` (marker 0x32): varint length, then that many raw bytes
formatted into a Python string. -/
def BinaryFormatted.parse (b : List Nat) (ctx : ParserContext) : Res :=
  match b with
  | [] => .error .indexError
  | m :: b =>
    if m ≠ 0x32 then .error (.vse (.invalidMarker "BinaryFormatted")) else
    match read_7bit_encoded_int b with
    | .error e => .error e
    | .ok (n, b) =>
      if n > b.length then .error (.vse .notEnoughBinary)
      else .ok (.binaryStr (b.take n), b.drop n, ctx)

/-- Loop of `StringArray.parse`: `n` consecutive string productions. -/
def stringArrayLoop : Nat → List Nat → Except PyErr (List String × List Nat)
  | 0, b => .ok ([], b)
  | n+1, b =>
    match StringValue.parseStr b with
    | .error e => .error e
    | .ok (s, b) =>
      match stringArrayLoop n b with
      | .error e => .error e
      | .ok (ss, rest) => .ok (s :: ss, rest)

/-- `StringArray.parse` (marker 0x15): varint count, then that many string
productions collected into a Python list. -/
def StringArray.parse (b : List Nat) (ctx : ParserContext) : Res :=
  match b with
  | [] => .error .indexError
  | m :: b =>
    if m ≠ 0x15 then .error (.vse (.invalidMarker "StringArray")) else
    match read_7bit_encoded_int b with
    | .error e => .error e
    | .ok (n, b) =>
      match stringArrayLoop n b with
      | .error e => .error e
      | .ok (ss, rest) => .ok (.list (ss.map .str), rest, ctx)

/-- `d[key] = value` on a Python dict kept in insertion order: if an existing key is
`==`-equal to the new one (`pyKeyEq` on the canonical keys) its value is replaced
in place and the stored key object is kept; otherwise the pair is appended.  A NaN
key is `==`-equal to nothing, so it always appends. -/
def dictInsert : List (Value × Value) → Value → Value → List (Value × Value)
  | [], k, v => [(k, v)]
  | (k₀, v₀) :: rest, k, v =>
    if pyKeyEq (pyKey k₀) (pyKey k) then (k₀, v) :: rest
    else (k₀, v₀) :: dictInsert rest k v

/-- The type of the recursive decoder that composite rules re-enter
(`Parser.parse` in the source). -/
abbrev P := List Nat → ParserContext → Res

/-- `PairValue.parse` (marker 0x0F): two nested values. -/
def PairValue.parseWith (p : P) (b : List Nat) (ctx : ParserContext) : Res :=
  match b with
  | [] => .error .indexError
  | m :: b =>
    if m ≠ 0x0F then .error (.vse (.invalidMarker "Pair")) else
    match p b ctx with
    | .error e => .error e
    | .ok (first, b, ctx) =>
      match p b ctx with
      | .error e => .error e
      | .ok (second, b, ctx) => .ok (.pair first second, b, ctx)

/-- `TripletValue.parse` (marker 0x10): three nested values. -/
def TripletValue.parseWith (p : P) (b : List Nat) (ctx : ParserContext) : Res :=
  match b with
  | [] => .error .indexError
  | m :: b =>
    if m ≠ 0x10 then .error (.vse (.invalidMarker "Triplet")) else
    match p b ctx with
    | .error e => .error e
    | .ok (first, b, ctx) =>
      match p b ctx with
      | .error e => .error e
      | .ok (second, b, ctx) =>
        match p b ctx with
        | .error e => .error e
        | .ok (third, b, ctx) => .ok (.triplet first second third, b, ctx)

/-- The element loop of `TypedArray.parse` and `ListValue.parse`: `n` nested values. -/
def parseManyLoop (p : P) : Nat → List Nat → ParserContext →
    Except PyErr (List Value × List Nat × ParserContext)
  | 0, b, ctx => .ok ([], b, ctx)
  | n+1, b, ctx =>
    match p b ctx with
    | .error e => .error e
    | .ok (v, b, ctx) =>
      match parseManyLoop p n b ctx with
      | .error e => .error e
      | .ok (vs, rest, ctx') => .ok (v :: vs, rest, ctx')

/-- `TypedArray.parse` (marker 0x14): a nested value for the element type
(dispatched generically and then discarded), a varint length, then that many
nested values. -/
def TypedArray.parseWith (p : P) (b : List Nat) (ctx : ParserContext) : Res :=
  match b with
  | [] => .error .indexError
  | m :: b =>
    if m ≠ 0x14 then .error (.vse (.invalidMarker "TypedArray")) else
    match p b ctx with
    | .error e => .error e
    | .ok (_, b, ctx) =>
      match read_7bit_encoded_int b with
      | .error e => .error e
      | .ok (n, b) =>
        match parseManyLoop p n b ctx with
        | .error e => .error e
        | .ok (arr, rest, ctx') => .ok (.list arr, rest, ctx')

/-- `ListValue.parse` (marker 0x16): varint count, then that many nested values. -/
def ListValue.parseWith (p : P) (b : List Nat) (ctx : ParserContext) : Res :=
  match b with
  | [] => .error .indexError
  | m :: b =>
    if m ≠ 0x16 then .error (.vse (.invalidMarker "List")) else
    match read_7bit_encoded_int b with
    | .error e => .error e
    | .ok (n, b) =>
      match parseManyLoop p n b ctx with
      | .error e => .error e
      | .ok (vs, rest, ctx') => .ok (.list vs, rest, ctx')

/-- The pair loop of `DictValue.parse` with accumulator `d`: for each of `n` rounds,
parse a key and a value, then perform `d[key] = value` (a host `TypeError` if the
key is unhashable). -/
def dictLoop (p : P) : Nat → List Nat → ParserContext → List (Value × Value) →
    Except PyErr (List (Value × Value) × List Nat × ParserContext)
  | 0, b, ctx, d => .ok (d, b, ctx)
  | n+1, b, ctx, d =>
    match p b ctx with
    | .error e => .error e
    | .ok (key, b, ctx) =>
      match p b ctx with
      | .error e => .error e
      | .ok (value, b, ctx) =>
        if hashable key then dictLoop p n b ctx (dictInsert d key value)
        else .error .typeError

/-- `DictValue.parse` (markers 0x17 and 0x18): the marker byte is consumed without
being examined, then a varint count and that many key/value pairs. -/
def DictValue.parseWith (p : P) (b : List Nat) (ctx : ParserContext) : Res :=
  match b with
  | [] => .error .indexError
  | _ :: b =>
    match read_7bit_encoded_int b with
    | .error e => .error e
    | .ok (n, b) =>
      match dictLoop p n b ctx [] with
      | .error e => .error e
      | .ok (d, rest, ctx') => .ok (.dict d, rest, ctx')

/-- `FormattedString.parse` (marker 0x28): a nested value (dispatched generically),
then a string production; if the nested value `is None` the whole production yields
`None`, otherwise the formatted string.  The string payload is consumed either way. -/
def FormattedString.parseWith (p : P) (b : List Nat) (ctx : ParserContext) : Res :=
  match b with
  | [] => .error .indexError
  | m :: b =>
    if m ≠ 0x28 then .error (.vse (.invalidMarker "FormattedString")) else
    match p b ctx with
    | .error e => .error e
    | .ok (type_ref, b, ctx) =>
      match StringValue.parseStr b with
      | .error e => .error e
      | .ok (s, rest) =>
        match type_ref with
        | .none => .ok (.none, rest, ctx)
        | _ => .ok (.str ("SerialisedObject(" ++ s ++ ")"), rest, ctx)

/-- The entry loop of `SparseArray.parse`: for each of `num_non_null` rounds, a
varint index (rejected if not below the declared length, before the value is even
parsed) and a nested value placed by `arr[idx] = val`. -/
def sparseLoop (p : P) (length : Nat) : Nat → List Nat → ParserContext → List Value →
    Except PyErr (List Value × List Nat × ParserContext)
  | 0, b, ctx, arr => .ok (arr, b, ctx)
  | k+1, b, ctx, arr =>
    match read_7bit_encoded_int b with
    | .error e => .error e
    | .ok (idx, b) =>
      if idx ≥ length then .error (.vse .invalidSparseIndex)
      else
        match p b ctx with
        | .error e => .error e
        | .ok (val, b, ctx) => sparseLoop p length k b ctx (arr.set idx val)

/-- `SparseArray.parse` (marker 0x3C): a nested value for the element type
(discarded), a varint full length, a varint non-null count, then that many
index/value pairs placed into a `[None] * length` array. -/
def SparseArray.parseWith (p : P) (b : List Nat) (ctx : ParserContext) : Res :=
  match b with
  | [] => .error .indexError
  | m :: b =>
    if m ≠ 0x3C then .error (.vse (.invalidMarker "SparseArray")) else
    match p b ctx with
    | .error e => .error e
    | .ok (_, b, ctx) =>
      match read_7bit_encoded_int b with
      | .error e => .error e
      | .ok (length, b) =>
        match read_7bit_encoded_int b with
        | .error e => .error e
        | .ok (num, b) =>
          match sparseLoop p length num b ctx (List.replicate length .none) with
          | .error e => .error e
          | .ok (arr, rest, ctx') => .ok (.list arr, rest, ctx')

/-- The rule classes collected in `Parser.registry` by the registering metaclass. -/
inductive RuleId where
  | noop | noneConst | emptyConst | zeroConst | trueConst | falseConst
  | integer | byteValue | charValue | stringValue | dateTimeValue
  | doubleValue | floatValue | rgba | knownColor | enumValue | colorEmpty
  | pairValue | tripletValue | typedArray | stringArray | listValue | dictValue
  | typeValue | unitValue | unitEmpty | indexedString | formattedString
  | binaryFormatted | sparseArray
  deriving DecidableEq

/-- `Parser.registry`: the marker byte → rule class mapping built by the metaclass
(a rule with a tuple marker, `DictValue` and `IndexedString`, registers twice). -/
def registry : Nat → Option RuleId
  | 0x01 => some .noop
  | 0x02 => some .integer
  | 0x03 => some .byteValue
  | 0x04 => some .charValue
  | 0x05 => some .stringValue
  | 0x06 => some .dateTimeValue
  | 0x07 => some .doubleValue
  | 0x08 => some .floatValue
  | 0x09 => some .rgba
  | 0x0A => some .knownColor
  | 0x0B => some .enumValue
  | 0x0C => some .colorEmpty
  | 0x0F => some .pairValue
  | 0x10 => some .tripletValue
  | 0x14 => some .typedArray
  | 0x15 => some .stringArray
  | 0x16 => some .listValue
  | 0x17 => some .dictValue
  | 0x18 => some .dictValue
  | 0x19 => some .typeValue
  | 0x1B => some .unitValue
  | 0x1C => some .unitEmpty
  | 0x1E => some .indexedString
  | 0x1F => some .indexedString
  | 0x28 => some .formattedString
  | 0x32 => some .binaryFormatted
  | 0x3C => some .sparseArray
  | 0x64 => some .noneConst
  | 0x65 => some .emptyConst
  | 0x66 => some .zeroConst
  | 0x67 => some .trueConst
  | 0x68 => some .falseConst
  | _ => none

/-- `parser_cls.parse(b, ctx)`: invoke the matched rule on the FULL buffer, marker
byte included (the dispatcher does not strip it); composite rules re-enter through
`p`. -/
def runRuleWith (p : P) : RuleId → List Nat → ParserContext → Res
  | .noop, b, ctx => Noop.parse b ctx
  | .noneConst, b, ctx => NoneConst.parse b ctx
  | .emptyConst, b, ctx => EmptyConst.parse b ctx
  | .zeroConst, b, ctx => ZeroConst.parse b ctx
  | .trueConst, b, ctx => TrueConst.parse b ctx
  | .falseConst, b, ctx => FalseConst.parse b ctx
  | .integer, b, ctx => Integer.parse b ctx
  | .byteValue, b, ctx => ByteValue.parse b ctx
  | .charValue, b, ctx => CharValue.parse b ctx
  | .stringValue, b, ctx => StringValue.parse b ctx
  | .dateTimeValue, b, ctx => DateTimeValue.parse b ctx
  | .doubleValue, b, ctx => DoubleValue.parse b ctx
  | .floatValue, b, ctx => FloatValue.parse b ctx
  | .rgba, b, ctx => RGBA.parse b ctx
  | .knownColor, b, ctx => KnownColor.parse b ctx
  | .enumValue, b, ctx => EnumValue.parse b ctx
  | .colorEmpty, b, ctx => ColorEmpty.parse b ctx
  | .pairValue, b, ctx => PairValue.parseWith p b ctx
  | .tripletValue, b, ctx => TripletValue.parseWith p b ctx
  | .typedArray, b, ctx => TypedArray.parseWith p b ctx
  | .stringArray, b, ctx => StringArray.parse b ctx
  | .listValue, b, ctx => ListValue.parseWith p b ctx
  | .dictValue, b, ctx => DictValue.parseWith p b ctx
  | .typeValue, b, ctx => TypeValue.parse b ctx
  | .unitValue, b, ctx => UnitValue.parse b ctx
  | .unitEmpty, b, ctx => UnitEmpty.parse b ctx
  | .indexedString, b, ctx => IndexedString.parse b ctx
  | .formattedString, b, ctx => FormattedString.parseWith p b ctx
  | .binaryFormatted, b, ctx => BinaryFormatted.parse b ctx
  | .sparseArray, b, ctx => SparseArray.parseWith p b ctx

/-- `Parser.parse(b, ctx)` as a fuel-indexed function: fail on an empty buffer,
look the first byte up in the registry without consuming it, and hand the full
buffer to the matched rule; nested values re-enter with one unit of fuel less.
Every dispatch consumes at least the marker byte before re-entering, so any fuel
above the buffer length is never exhausted. -/
def parseF : Nat → List Nat → ParserContext → Res
  | 0, _, _ => .error .outOfFuel
  | fuel+1, b, ctx =>
    match b with
    | [] => .error (.vse .noData)
    | m :: _ =>
      match registry m with
      | none => .error (.vse (.unknownMarker m))
      | some rid => runRuleWith (fun b' ctx' => parseF fuel b' ctx') rid b ctx

/-- `Parser.parse(b, ctx)`: the dispatcher, with the always-sufficient canonical
fuel. -/
def Parser.parse (b : List Nat) (ctx : ParserContext) : Res :=
  parseF (b.length + 1) b ctx

/-- `PairValue.parse` exactly as in the source: its nested values re-enter
`Parser.parse`. -/
def PairValue.parse (b : List Nat) (ctx : ParserContext) : Res :=
  PairValue.parseWith Parser.parse b ctx

/-- `TripletValue.parse` re-entering `Parser.parse`. -/
def TripletValue.parse (b : List Nat) (ctx : ParserContext) : Res :=
  TripletValue.parseWith Parser.parse b ctx

/-- `TypedArray.parse` re-entering `Parser.parse`. -/
def TypedArray.parse (b : List Nat) (ctx : ParserContext) : Res :=
  TypedArray.parseWith Parser.parse b ctx

/-- `ListValue.parse` re-entering `Parser.parse`. -/
def ListValue.parse (b : List Nat) (ctx : ParserContext) : Res :=
  ListValue.parseWith Parser.parse b ctx

/-- `DictValue.parse` re-entering `Parser.parse`. -/
def DictValue.parse (b : List Nat) (ctx : ParserContext) : Res :=
  DictValue.parseWith Parser.parse b ctx

/-- `FormattedString.parse` re-entering `Parser.parse`. -/
def FormattedString.parse (b : List Nat) (ctx : ParserContext) : Res :=
  FormattedString.parseWith Parser.parse b ctx

/-- `SparseArray.parse` re-entering `Parser.parse`. -/
def SparseArray.parse (b : List Nat) (ctx : ParserContext) : Res :=
  SparseArray.parseWith Parser.parse b ctx

/-- The result of `parse_viewstate`. -/
structure EnvelopeResult where
  value : Value
  macEnabled : Bool
  raw : List Nat

/-- `parse_viewstate(b)`: require the 0xFF 0x01 header, strip it, decode one root
value with a fresh context, then classify the leftover length (0 → no MAC, 20 or
32 → MAC enabled, else an invalid-trailer error); `raw` is the full post-header
byte sequence. -/
def parse_viewstate (b : List Nat) : Except PyErr EnvelopeResult :=
  match b with
  | x :: y :: body =>
    if x = 0xFF ∧ y = 0x01 then
      match Parser.parse body ParserContext.empty with
      | .error e => .error e
      | .ok (value, remain, _) =>
        if remain.length = 0 then .ok ⟨value, false, body⟩
        else if remain.length = 20 ∨ remain.length = 32 then .ok ⟨value, true, body⟩
        else .error (.vse (.invalidTrailer remain.length))
    else .error (.vse .invalidHeader)
  | _ => .error (.vse .invalidHeader)

/-! ### Consumption and table-growth invariants

`PLen p` says a successful parse strictly consumes input; `PInv p` adds that the
context tables only grow by appends.  These are proved for every rule and then for
the dispatcher by induction on fuel, and finally used to eliminate the fuel
artifact: `Parser.parse` satisfies the source's recursive equations verbatim
(`Parser.parse_eq`). -/

/-- A successful parse strictly consumes input. -/
def PLen (p : P) : Prop :=
  ∀ b ctx v r c, p b ctx = .ok (v, r, c) → r.length < b.length

/-- A successful parse strictly consumes input and only appends to the tables. -/
def PInv (p : P) : Prop :=
  ∀ b ctx v r c, p b ctx = .ok (v, r, c) → r.length < b.length ∧ CtxLE ctx c

theorem PInv.len {p : P} (h : PInv p) : PLen p :=
  fun b ctx v r c hp => (h b ctx v r c hp).1

theorem sevenBitLoop_len (err : PyErr) :
    ∀ (b : List Nat) (acc shift : Nat) {n : Nat} {rest : List Nat},
      sevenBitLoop err b acc shift = .ok (n, rest) → rest.length < b.length := by
  intro b
  induction b with
  | nil => intro acc shift n rest h; simp [sevenBitLoop] at h
  | cons t bs ih =>
    intro acc shift n rest h
    simp only [sevenBitLoop] at h
    split at h
    · simp only [Except.ok.injEq, Prod.mk.injEq] at h
      simp [← h.2]
    · exact Nat.lt_trans (ih _ _ h) (by simp)

theorem read_7bit_encoded_int_len {b : List Nat} {n : Nat} {rest : List Nat}
    (h : read_7bit_encoded_int b = .ok (n, rest)) : rest.length < b.length :=
  sevenBitLoop_len _ b 0 0 h

theorem read_int32_len {b : List Nat} {n : Nat} {rest : List Nat}
    (h : read_int32 b = .ok (n, rest)) : rest.length + 4 = b.length := by
  simp only [read_int32] at h
  split at h
  · simp at h
  · simp only [Except.ok.injEq, Prod.mk.injEq] at h
    simp [← h.2]
    omega

theorem read_int64_len {b : List Nat} {n : Nat} {rest : List Nat}
    (h : read_int64 b = .ok (n, rest)) : rest.length + 8 = b.length := by
  simp only [read_int64] at h
  split at h
  · simp at h
  · simp only [Except.ok.injEq, Prod.mk.injEq] at h
    simp [← h.2]
    omega

theorem read_double_len {b : List Nat} {raw rest : List Nat}
    (h : read_double b = .ok (raw, rest)) : rest.length + 8 = b.length := by
  simp only [read_double] at h
  split at h
  · simp at h
  · simp only [Except.ok.injEq, Prod.mk.injEq] at h
    simp [← h.2]
    omega

theorem read_float_len {b : List Nat} {raw rest : List Nat}
    (h : read_float b = .ok (raw, rest)) : rest.length + 4 = b.length := by
  simp only [read_float] at h
  split at h
  · simp at h
  · simp only [Except.ok.injEq, Prod.mk.injEq] at h
    simp [← h.2]
    omega

theorem stringValue_parseStr_len {b : List Nat} {s : String} {rest : List Nat}
    (h : StringValue.parseStr b = .ok (s, rest)) : rest.length < b.length := by
  unfold StringValue.parseStr at h
  match b with
  | [] => simp at h
  | m :: b' =>
    simp only at h
    split at h
    · simp at h
    · cases h7 : read_7bit_encoded_int b' with
      | error e => rw [h7] at h; simp at h
      | ok val =>
        obtain ⟨n, b₁⟩ := val
        rw [h7] at h
        have hb₁ := read_7bit_encoded_int_len h7
        simp only at h
        split at h
        · simp only [Except.ok.injEq, Prod.mk.injEq] at h
          simp [← h.2]
          omega
        · split at h
          · simp at h
          · simp only [Except.ok.injEq, Prod.mk.injEq] at h
            have : rest = b₁.drop n := h.2.symm
            subst this
            simp
            omega

/-- A successful string production starts with the 0x05 marker. -/
theorem stringValue_parseStr_head {b : List Nat} {s : String} {rest : List Nat}
    (h : StringValue.parseStr b = .ok (s, rest)) : ∃ t, b = 0x05 :: t := by
  unfold StringValue.parseStr at h
  match b with
  | [] => simp at h
  | m :: b' =>
    simp only at h
    split at h
    · simp at h
    · rename_i hm
      simp only [ne_eq, Decidable.not_not] at hm
      exact ⟨b', by rw [hm]⟩

theorem noop_parse_inv {m : Nat} {rest : List Nat} {ctx : ParserContext}
    {v : Value} {r : List Nat} {c : ParserContext}
    (h : Noop.parse (m :: rest) ctx = .ok (v, r, c)) :
    r.length < (m :: rest).length ∧ CtxLE ctx c := by
  simp only [Noop.parse, Except.ok.injEq, Prod.mk.injEq] at h
  obtain ⟨-, rfl, rfl⟩ := h
  exact ⟨by simp, ctxLE_refl _⟩

theorem noneConst_parse_inv {m : Nat} {rest : List Nat} {ctx : ParserContext}
    {v : Value} {r : List Nat} {c : ParserContext}
    (h : NoneConst.parse (m :: rest) ctx = .ok (v, r, c)) :
    r.length < (m :: rest).length ∧ CtxLE ctx c := by
  simp only [NoneConst.parse, Except.ok.injEq, Prod.mk.injEq] at h
  obtain ⟨-, rfl, rfl⟩ := h
  exact ⟨by simp, ctxLE_refl _⟩

theorem emptyConst_parse_inv {m : Nat} {rest : List Nat} {ctx : ParserContext}
    {v : Value} {r : List Nat} {c : ParserContext}
    (h : EmptyConst.parse (m :: rest) ctx = .ok (v, r, c)) :
    r.length < (m :: rest).length ∧ CtxLE ctx c := by
  simp only [EmptyConst.parse, Except.ok.injEq, Prod.mk.injEq] at h
  obtain ⟨-, rfl, rfl⟩ := h
  exact ⟨by simp, ctxLE_refl _⟩

theorem zeroConst_parse_inv {m : Nat} {rest : List Nat} {ctx : ParserContext}
    {v : Value} {r : List Nat} {c : ParserContext}
    (h : ZeroConst.parse (m :: rest) ctx = .ok (v, r, c)) :
    r.length < (m :: rest).length ∧ CtxLE ctx c := by
  simp only [ZeroConst.parse, Except.ok.injEq, Prod.mk.injEq] at h
  obtain ⟨-, rfl, rfl⟩ := h
  exact ⟨by simp, ctxLE_refl _⟩

theorem trueConst_parse_inv {m : Nat} {rest : List Nat} {ctx : ParserContext}
    {v : Value} {r : List Nat} {c : ParserContext}
    (h : TrueConst.parse (m :: rest) ctx = .ok (v, r, c)) :
    r.length < (m :: rest).length ∧ CtxLE ctx c := by
  simp only [TrueConst.parse, Except.ok.injEq, Prod.mk.injEq] at h
  obtain ⟨-, rfl, rfl⟩ := h
  exact ⟨by simp, ctxLE_refl _⟩

theorem falseConst_parse_inv {m : Nat} {rest : List Nat} {ctx : ParserContext}
    {v : Value} {r : List Nat} {c : ParserContext}
    (h : FalseConst.parse (m :: rest) ctx = .ok (v, r, c)) :
    r.length < (m :: rest).length ∧ CtxLE ctx c := by
  simp only [FalseConst.parse, Except.ok.injEq, Prod.mk.injEq] at h
  obtain ⟨-, rfl, rfl⟩ := h
  exact ⟨by simp, ctxLE_refl _⟩

theorem integer_parse_inv {m : Nat} {rest : List Nat} {ctx : ParserContext}
    {v : Value} {r : List Nat} {c : ParserContext}
    (h : Integer.parse (m :: rest) ctx = .ok (v, r, c)) :
    r.length < (m :: rest).length ∧ CtxLE ctx c := by
  simp only [Integer.parse] at h
  split at h
  · simp at h
  · cases hs : sevenBitLoop (PyErr.vse .endOfDataInteger) rest 0 0 with
    | error e => rw [hs] at h; simp at h
    | ok val =>
      obtain ⟨n, rest'⟩ := val
      rw [hs] at h
      simp only [Except.ok.injEq, Prod.mk.injEq] at h
      obtain ⟨-, rfl, rfl⟩ := h
      have := sevenBitLoop_len _ _ _ _ hs
      exact ⟨by simp only [List.length_cons]; omega, ctxLE_refl _⟩

theorem byteValue_parse_inv {m : Nat} {rest : List Nat} {ctx : ParserContext}
    {v : Value} {r : List Nat} {c : ParserContext}
    (h : ByteValue.parse (m :: rest) ctx = .ok (v, r, c)) :
    r.length < (m :: rest).length ∧ CtxLE ctx c := by
  simp only [ByteValue.parse] at h
  split at h
  · simp at h
  · cases rest with
    | nil => simp at h
    | cons x rest2 =>
      simp only [Except.ok.injEq, Prod.mk.injEq] at h
      obtain ⟨-, rfl, rfl⟩ := h
      exact ⟨by simp only [List.length_cons]; omega, ctxLE_refl _⟩

theorem charValue_parse_inv {m : Nat} {rest : List Nat} {ctx : ParserContext}
    {v : Value} {r : List Nat} {c : ParserContext}
    (h : CharValue.parse (m :: rest) ctx = .ok (v, r, c)) :
    r.length < (m :: rest).length ∧ CtxLE ctx c := by
  simp only [CharValue.parse] at h
  split at h
  · simp at h
  · cases rest with
    | nil => simp at h
    | cons x rest2 =>
      simp only [Except.ok.injEq, Prod.mk.injEq] at h
      obtain ⟨-, rfl, rfl⟩ := h
      exact ⟨by simp only [List.length_cons]; omega, ctxLE_refl _⟩

theorem stringValue_parse_inv {b : List Nat} {ctx : ParserContext}
    {v : Value} {r : List Nat} {c : ParserContext}
    (h : StringValue.parse b ctx = .ok (v, r, c)) :
    r.length < b.length ∧ CtxLE ctx c := by
  simp only [StringValue.parse] at h
  cases hs : StringValue.parseStr b with
  | error e => rw [hs] at h; simp at h
  | ok val =>
    obtain ⟨s, rest⟩ := val
    rw [hs] at h
    simp only [Except.ok.injEq, Prod.mk.injEq] at h
    obtain ⟨-, rfl, rfl⟩ := h
    exact ⟨stringValue_parseStr_len hs, ctxLE_refl _⟩

theorem dateTimeValue_parse_inv {m : Nat} {rest : List Nat} {ctx : ParserContext}
    {v : Value} {r : List Nat} {c : ParserContext}
    (h : DateTimeValue.parse (m :: rest) ctx = .ok (v, r, c)) :
    r.length < (m :: rest).length ∧ CtxLE ctx c := by
  simp only [DateTimeValue.parse] at h
  split at h
  · simp at h
  · cases h64 : read_int64 rest with
    | error e => rw [h64] at h; simp at h
    | ok val =>
      obtain ⟨ticks, rest'⟩ := val
      rw [h64] at h
      simp only at h
      split at h
      · simp at h
      · simp only [Except.ok.injEq, Prod.mk.injEq] at h
        obtain ⟨-, rfl, rfl⟩ := h
        have := read_int64_len h64
        exact ⟨by simp only [List.length_cons]; omega, ctxLE_refl _⟩

theorem doubleValue_parse_inv {m : Nat} {rest : List Nat} {ctx : ParserContext}
    {v : Value} {r : List Nat} {c : ParserContext}
    (h : DoubleValue.parse (m :: rest) ctx = .ok (v, r, c)) :
    r.length < (m :: rest).length ∧ CtxLE ctx c := by
  simp only [DoubleValue.parse] at h
  split at h
  · simp at h
  · cases hd : read_double rest with
    | error e => rw [hd] at h; simp at h
    | ok val =>
      obtain ⟨raw, rest'⟩ := val
      rw [hd] at h
      simp only [Except.ok.injEq, Prod.mk.injEq] at h
      obtain ⟨-, rfl, rfl⟩ := h
      have := read_double_len hd
      exact ⟨by simp only [List.length_cons]; omega, ctxLE_refl _⟩

theorem floatValue_parse_inv {m : Nat} {rest : List Nat} {ctx : ParserContext}
    {v : Value} {r : List Nat} {c : ParserContext}
    (h : FloatValue.parse (m :: rest) ctx = .ok (v, r, c)) :
    r.length < (m :: rest).length ∧ CtxLE ctx c := by
  simp only [FloatValue.parse] at h
  split at h
  · simp at h
  · cases hf : read_float rest with
    | error e => rw [hf] at h; simp at h
    | ok val =>
      obtain ⟨raw, rest'⟩ := val
      rw [hf] at h
      simp only [Except.ok.injEq, Prod.mk.injEq] at h
      obtain ⟨-, rfl, rfl⟩ := h
      have := read_float_len hf
      exact ⟨by simp only [List.length_cons]; omega, ctxLE_refl _⟩

theorem rGBA_parse_inv {m : Nat} {rest : List Nat} {ctx : ParserContext}
    {v : Value} {r : List Nat} {c : ParserContext}
    (h : RGBA.parse (m :: rest) ctx = .ok (v, r, c)) :
    r.length < (m :: rest).length ∧ CtxLE ctx c := by
  simp only [RGBA.parse] at h
  split at h
  · simp at h
  · cases h32 : read_int32 rest with
    | error e => rw [h32] at h; simp at h
    | ok val =>
      obtain ⟨n, rest'⟩ := val
      rw [h32] at h
      simp only [Except.ok.injEq, Prod.mk.injEq] at h
      obtain ⟨-, rfl, rfl⟩ := h
      have := read_int32_len h32
      exact ⟨by simp only [List.length_cons]; omega, ctxLE_refl _⟩

theorem knownColor_parse_inv {m : Nat} {rest : List Nat} {ctx : ParserContext}
    {v : Value} {r : List Nat} {c : ParserContext}
    (h : KnownColor.parse (m :: rest) ctx = .ok (v, r, c)) :
    r.length < (m :: rest).length ∧ CtxLE ctx c := by
  simp only [KnownColor.parse] at h
  split at h
  · simp at h
  · cases h7 : read_7bit_encoded_int rest with
    | error e => rw [h7] at h; simp at h
    | ok val =>
      obtain ⟨idx, rest'⟩ := val
      rw [h7] at h
      simp only [Except.ok.injEq, Prod.mk.injEq] at h
      obtain ⟨-, rfl, rfl⟩ := h
      have := read_7bit_encoded_int_len h7
      exact ⟨by simp only [List.length_cons]; omega, ctxLE_refl _⟩

theorem typeValue_parseStr_inv {b : List Nat} {ctx : ParserContext}
    {s : String} {r : List Nat} {c : ParserContext}
    (h : TypeValue.parseStr b ctx = .ok (s, r, c)) :
    r.length < b.length ∧ CtxLE ctx c := by
  unfold TypeValue.parseStr at h
  match b with
  | [] => simp at h
  | m :: b' =>
    simp only at h
    split at h
    · simp at h
    · cases b' with
      | nil => simp at h
      | cons x b'' =>
        simp only at h
        split at h
        · cases h7 : read_7bit_encoded_int b'' with
          | error e => rw [h7] at h; simp at h
          | ok val =>
            obtain ⟨idx, rest'⟩ := val
            rw [h7] at h
            simp only at h
            cases hg : ctx.get_type idx with
            | some t =>
              rw [hg] at h
              simp only [Except.ok.injEq, Prod.mk.injEq] at h
              obtain ⟨rfl, rfl, rfl⟩ := h
              have := read_7bit_encoded_int_len h7
              exact ⟨by simp only [List.length_cons]; omega, ctxLE_refl _⟩
            | none => rw [hg] at h; simp at h
        · cases hs : StringValue.parseStr (x :: b'') with
          | error e => rw [hs] at h; simp at h
          | ok val =>
            obtain ⟨s', rest'⟩ := val
            rw [hs] at h
            simp only [Except.ok.injEq, Prod.mk.injEq] at h
            obtain ⟨rfl, rfl, rfl⟩ := h
            have := stringValue_parseStr_len hs
            refine ⟨by simp only [List.length_cons] at *; omega, ?_⟩
            exact ⟨tableLE_append _ _, tableLE_refl _⟩

theorem typeValue_parse_inv {b : List Nat} {ctx : ParserContext}
    {v : Value} {r : List Nat} {c : ParserContext}
    (h : TypeValue.parse b ctx = .ok (v, r, c)) :
    r.length < b.length ∧ CtxLE ctx c := by
  simp only [TypeValue.parse] at h
  cases hs : TypeValue.parseStr b ctx with
  | error e => rw [hs] at h; simp at h
  | ok val =>
    obtain ⟨s, rest, ctx'⟩ := val
    rw [hs] at h
    simp only [Except.ok.injEq, Prod.mk.injEq] at h
    obtain ⟨-, rfl, rfl⟩ := h
    exact typeValue_parseStr_inv hs

theorem enumValue_parse_inv {m : Nat} {rest : List Nat} {ctx : ParserContext}
    {v : Value} {r : List Nat} {c : ParserContext}
    (h : EnumValue.parse (m :: rest) ctx = .ok (v, r, c)) :
    r.length < (m :: rest).length ∧ CtxLE ctx c := by
  simp only [EnumValue.parse] at h
  split at h
  · simp at h
  · cases ht : TypeValue.parseStr rest ctx with
    | error e => rw [ht] at h; simp at h
    | ok val =>
      obtain ⟨t, b₁, ctx₁⟩ := val
      rw [ht] at h
      simp only at h
      cases h7 : read_7bit_encoded_int b₁ with
      | error e => rw [h7] at h; simp at h
      | ok val2 =>
        obtain ⟨n, rest'⟩ := val2
        rw [h7] at h
        simp only [Except.ok.injEq, Prod.mk.injEq] at h
        obtain ⟨-, rfl, rfl⟩ := h
        obtain ⟨hl, hc⟩ := typeValue_parseStr_inv ht
        have := read_7bit_encoded_int_len h7
        exact ⟨by simp only [List.length_cons]; omega, hc⟩

theorem colorEmpty_parse_inv {m : Nat} {rest : List Nat} {ctx : ParserContext}
    {v : Value} {r : List Nat} {c : ParserContext}
    (h : ColorEmpty.parse (m :: rest) ctx = .ok (v, r, c)) :
    r.length < (m :: rest).length ∧ CtxLE ctx c := by
  simp only [ColorEmpty.parse] at h
  split at h
  · simp at h
  · simp only [Except.ok.injEq, Prod.mk.injEq] at h
    obtain ⟨-, rfl, rfl⟩ := h
    exact ⟨by simp, ctxLE_refl _⟩

theorem unitValue_parse_inv {m : Nat} {rest : List Nat} {ctx : ParserContext}
    {v : Value} {r : List Nat} {c : ParserContext}
    (h : UnitValue.parse (m :: rest) ctx = .ok (v, r, c)) :
    r.length < (m :: rest).length ∧ CtxLE ctx c := by
  simp only [UnitValue.parse] at h
  split at h
  · simp at h
  · cases hd : read_double rest with
    | error e => rw [hd] at h; simp at h
    | ok val =>
      obtain ⟨raw, b₁⟩ := val
      rw [hd] at h
      simp only at h
      cases h32 : read_int32 b₁ with
      | error e => rw [h32] at h; simp at h
      | ok val2 =>
        obtain ⟨i, rest'⟩ := val2
        rw [h32] at h
        simp only [Except.ok.injEq, Prod.mk.injEq] at h
        obtain ⟨-, rfl, rfl⟩ := h
        have := read_double_len hd
        have := read_int32_len h32
        exact ⟨by simp only [List.length_cons]; omega, ctxLE_refl _⟩

theorem unitEmpty_parse_inv {m : Nat} {rest : List Nat} {ctx : ParserContext}
    {v : Value} {r : List Nat} {c : ParserContext}
    (h : UnitEmpty.parse (m :: rest) ctx = .ok (v, r, c)) :
    r.length < (m :: rest).length ∧ CtxLE ctx c := by
  simp only [UnitEmpty.parse] at h
  split at h
  · simp at h
  · simp only [Except.ok.injEq, Prod.mk.injEq] at h
    obtain ⟨-, rfl, rfl⟩ := h
    exact ⟨by simp, ctxLE_refl _⟩

theorem indexedString_parse_inv {m : Nat} {rest : List Nat} {ctx : ParserContext}
    {v : Value} {r : List Nat} {c : ParserContext}
    (h : IndexedString.parse (m :: rest) ctx = .ok (v, r, c)) :
    r.length < (m :: rest).length ∧ CtxLE ctx c := by
  simp only [IndexedString.parse] at h
  split at h
  · cases rest with
    | nil => simp at h
    | cons idx rest' =>
      simp only at h
      cases hg : ctx.get_string idx with
      | some s =>
        rw [hg] at h
        simp only [Except.ok.injEq, Prod.mk.injEq] at h
        obtain ⟨-, rfl, rfl⟩ := h
        exact ⟨by simp only [List.length_cons]; omega, ctxLE_refl _⟩
      | none => rw [hg] at h; simp at h
  · cases hs : StringValue.parseStr rest with
    | error e => rw [hs] at h; simp at h
    | ok val =>
      obtain ⟨s, rest'⟩ := val
      rw [hs] at h
      simp only [Except.ok.injEq, Prod.mk.injEq] at h
      obtain ⟨-, rfl, rfl⟩ := h
      have := stringValue_parseStr_len hs
      refine ⟨by simp only [List.length_cons]; omega, ?_⟩
      exact ⟨tableLE_refl _, tableLE_append _ _⟩

theorem binaryFormatted_parse_inv {m : Nat} {rest : List Nat} {ctx : ParserContext}
    {v : Value} {r : List Nat} {c : ParserContext}
    (h : BinaryFormatted.parse (m :: rest) ctx = .ok (v, r, c)) :
    r.length < (m :: rest).length ∧ CtxLE ctx c := by
  simp only [BinaryFormatted.parse] at h
  split at h
  · simp at h
  · cases h7 : read_7bit_encoded_int rest with
    | error e => rw [h7] at h; simp at h
    | ok val =>
      obtain ⟨n, b₁⟩ := val
      rw [h7] at h
      simp only at h
      split at h
      · simp at h
      · simp only [Except.ok.injEq, Prod.mk.injEq] at h
        obtain ⟨-, rfl, rfl⟩ := h
        have := read_7bit_encoded_int_len h7
        refine ⟨?_, ctxLE_refl _⟩
        simp only [List.length_cons, List.length_drop] at *
        omega

theorem stringArrayLoop_len :
    ∀ (n : Nat) (b : List Nat) {ss : List String} {rest : List Nat},
      stringArrayLoop n b = .ok (ss, rest) → rest.length ≤ b.length := by
  intro n
  induction n with
  | zero =>
    intro b ss rest h
    simp only [stringArrayLoop, Except.ok.injEq, Prod.mk.injEq] at h
    simp [← h.2]
  | succ k ih =>
    intro b ss rest h
    simp only [stringArrayLoop] at h
    cases hs : StringValue.parseStr b with
    | error e => rw [hs] at h; simp at h
    | ok val =>
      obtain ⟨s, b₁⟩ := val
      rw [hs] at h
      simp only at h
      cases hl : stringArrayLoop k b₁ with
      | error e => rw [hl] at h; simp at h
      | ok val2 =>
        obtain ⟨ss', rest'⟩ := val2
        rw [hl] at h
        simp only [Except.ok.injEq, Prod.mk.injEq] at h
        obtain ⟨-, rfl⟩ := h
        have := stringValue_parseStr_len hs
        have := ih b₁ hl
        omega

theorem stringArray_parse_inv {m : Nat} {rest : List Nat} {ctx : ParserContext}
    {v : Value} {r : List Nat} {c : ParserContext}
    (h : StringArray.parse (m :: rest) ctx = .ok (v, r, c)) :
    r.length < (m :: rest).length ∧ CtxLE ctx c := by
  simp only [StringArray.parse] at h
  split at h
  · simp at h
  · cases h7 : read_7bit_encoded_int rest with
    | error e => rw [h7] at h; simp at h
    | ok val =>
      obtain ⟨n, b₁⟩ := val
      rw [h7] at h
      simp only at h
      cases hl : stringArrayLoop n b₁ with
      | error e => rw [hl] at h; simp at h
      | ok val2 =>
        obtain ⟨ss, rest'⟩ := val2
        rw [hl] at h
        simp only [Except.ok.injEq, Prod.mk.injEq] at h
        obtain ⟨-, rfl, rfl⟩ := h
        have := read_7bit_encoded_int_len h7
        have := stringArrayLoop_len n b₁ hl
        exact ⟨by simp only [List.length_cons]; omega, ctxLE_refl _⟩

theorem pairValue_parseWith_inv {p : P} (hp : PInv p)
    {m : Nat} {rest : List Nat} {ctx : ParserContext}
    {v : Value} {r : List Nat} {c : ParserContext}
    (h : PairValue.parseWith p (m :: rest) ctx = .ok (v, r, c)) :
    r.length < (m :: rest).length ∧ CtxLE ctx c := by
  simp only [PairValue.parseWith] at h
  split at h
  · simp at h
  · cases h1 : p rest ctx with
    | error e => rw [h1] at h; simp at h
    | ok val =>
      obtain ⟨v1, b1, ctx1⟩ := val
      rw [h1] at h
      simp only at h
      cases h2 : p b1 ctx1 with
      | error e => rw [h2] at h; simp at h
      | ok val2 =>
        obtain ⟨v2, b2, ctx2⟩ := val2
        rw [h2] at h
        simp only [Except.ok.injEq, Prod.mk.injEq] at h
        obtain ⟨-, rfl, rfl⟩ := h
        obtain ⟨l1, c1⟩ := hp _ _ _ _ _ h1
        obtain ⟨l2, c2⟩ := hp _ _ _ _ _ h2
        exact ⟨by simp only [List.length_cons]; omega, ctxLE_trans c1 c2⟩

theorem tripletValue_parseWith_inv {p : P} (hp : PInv p)
    {m : Nat} {rest : List Nat} {ctx : ParserContext}
    {v : Value} {r : List Nat} {c : ParserContext}
    (h : TripletValue.parseWith p (m :: rest) ctx = .ok (v, r, c)) :
    r.length < (m :: rest).length ∧ CtxLE ctx c := by
  simp only [TripletValue.parseWith] at h
  split at h
  · simp at h
  · cases h1 : p rest ctx with
    | error e => rw [h1] at h; simp at h
    | ok val =>
      obtain ⟨v1, b1, ctx1⟩ := val
      rw [h1] at h
      simp only at h
      cases h2 : p b1 ctx1 with
      | error e => rw [h2] at h; simp at h
      | ok val2 =>
        obtain ⟨v2, b2, ctx2⟩ := val2
        rw [h2] at h
        simp only at h
        cases h3 : p b2 ctx2 with
        | error e => rw [h3] at h; simp at h
        | ok val3 =>
          obtain ⟨v3, b3, ctx3⟩ := val3
          rw [h3] at h
          simp only [Except.ok.injEq, Prod.mk.injEq] at h
          obtain ⟨-, rfl, rfl⟩ := h
          obtain ⟨l1, c1⟩ := hp _ _ _ _ _ h1
          obtain ⟨l2, c2⟩ := hp _ _ _ _ _ h2
          obtain ⟨l3, c3⟩ := hp _ _ _ _ _ h3
          exact ⟨by simp only [List.length_cons]; omega, ctxLE_trans (ctxLE_trans c1 c2) c3⟩

theorem parseManyLoop_inv {p : P} (hp : PInv p) :
    ∀ (n : Nat) (b : List Nat) (ctx : ParserContext)
      {vs : List Value} {rest : List Nat} {c : ParserContext},
      parseManyLoop p n b ctx = .ok (vs, rest, c) →
        rest.length ≤ b.length ∧ CtxLE ctx c := by
  intro n
  induction n with
  | zero =>
    intro b ctx vs rest c h
    simp only [parseManyLoop, Except.ok.injEq, Prod.mk.injEq] at h
    obtain ⟨-, rfl, rfl⟩ := h
    exact ⟨Nat.le_refl _, ctxLE_refl _⟩
  | succ k ih =>
    intro b ctx vs rest c h
    simp only [parseManyLoop] at h
    cases h1 : p b ctx with
    | error e => rw [h1] at h; simp at h
    | ok val =>
      obtain ⟨v1, b1, ctx1⟩ := val
      rw [h1] at h
      simp only at h
      cases h2 : parseManyLoop p k b1 ctx1 with
      | error e => rw [h2] at h; simp at h
      | ok val2 =>
        obtain ⟨vs', rest', c'⟩ := val2
        rw [h2] at h
        simp only [Except.ok.injEq, Prod.mk.injEq] at h
        obtain ⟨-, rfl, rfl⟩ := h
        obtain ⟨l1, c1⟩ := hp _ _ _ _ _ h1
        obtain ⟨l2, c2⟩ := ih b1 ctx1 h2
        exact ⟨by omega, ctxLE_trans c1 c2⟩

theorem typedArray_parseWith_inv {p : P} (hp : PInv p)
    {m : Nat} {rest : List Nat} {ctx : ParserContext}
    {v : Value} {r : List Nat} {c : ParserContext}
    (h : TypedArray.parseWith p (m :: rest) ctx = .ok (v, r, c)) :
    r.length < (m :: rest).length ∧ CtxLE ctx c := by
  simp only [TypedArray.parseWith] at h
  split at h
  · simp at h
  · cases h1 : p rest ctx with
    | error e => rw [h1] at h; simp at h
    | ok val =>
      obtain ⟨v1, b1, ctx1⟩ := val
      rw [h1] at h
      simp only at h
      cases h7 : read_7bit_encoded_int b1 with
      | error e => rw [h7] at h; simp at h
      | ok val2 =>
        obtain ⟨n, b2⟩ := val2
        rw [h7] at h
        simp only at h
        cases hl : parseManyLoop p n b2 ctx1 with
        | error e => rw [hl] at h; simp at h
        | ok val3 =>
          obtain ⟨arr, rest', c'⟩ := val3
          rw [hl] at h
          simp only [Except.ok.injEq, Prod.mk.injEq] at h
          obtain ⟨-, rfl, rfl⟩ := h
          obtain ⟨l1, c1⟩ := hp _ _ _ _ _ h1
          have := read_7bit_encoded_int_len h7
          obtain ⟨l2, c2⟩ := parseManyLoop_inv hp n b2 ctx1 hl
          exact ⟨by simp only [List.length_cons]; omega, ctxLE_trans c1 c2⟩

theorem listValue_parseWith_inv {p : P} (hp : PInv p)
    {m : Nat} {rest : List Nat} {ctx : ParserContext}
    {v : Value} {r : List Nat} {c : ParserContext}
    (h : ListValue.parseWith p (m :: rest) ctx = .ok (v, r, c)) :
    r.length < (m :: rest).length ∧ CtxLE ctx c := by
  simp only [ListValue.parseWith] at h
  split at h
  · simp at h
  · cases h7 : read_7bit_encoded_int rest with
    | error e => rw [h7] at h; simp at h
    | ok val =>
      obtain ⟨n, b1⟩ := val
      rw [h7] at h
      simp only at h
      cases hl : parseManyLoop p n b1 ctx with
      | error e => rw [hl] at h; simp at h
      | ok val2 =>
        obtain ⟨vs, rest', c'⟩ := val2
        rw [hl] at h
        simp only [Except.ok.injEq, Prod.mk.injEq] at h
        obtain ⟨-, rfl, rfl⟩ := h
        have := read_7bit_encoded_int_len h7
        obtain ⟨l2, c2⟩ := parseManyLoop_inv hp n b1 ctx hl
        exact ⟨by simp only [List.length_cons]; omega, c2⟩

theorem dictLoop_inv {p : P} (hp : PInv p) :
    ∀ (n : Nat) (b : List Nat) (ctx : ParserContext) (d : List (Value × Value))
      {d' : List (Value × Value)} {rest : List Nat} {c : ParserContext},
      dictLoop p n b ctx d = .ok (d', rest, c) →
        rest.length ≤ b.length ∧ CtxLE ctx c := by
  intro n
  induction n with
  | zero =>
    intro b ctx d d' rest c h
    simp only [dictLoop, Except.ok.injEq, Prod.mk.injEq] at h
    obtain ⟨-, rfl, rfl⟩ := h
    exact ⟨Nat.le_refl _, ctxLE_refl _⟩
  | succ k ih =>
    intro b ctx d d' rest c h
    simp only [dictLoop] at h
    cases h1 : p b ctx with
    | error e => rw [h1] at h; simp at h
    | ok val =>
      obtain ⟨key, b1, ctx1⟩ := val
      rw [h1] at h
      simp only at h
      cases h2 : p b1 ctx1 with
      | error e => rw [h2] at h; simp at h
      | ok val2 =>
        obtain ⟨value, b2, ctx2⟩ := val2
        rw [h2] at h
        simp only at h
        split at h
        · obtain ⟨l1, c1⟩ := hp _ _ _ _ _ h1
          obtain ⟨l2, c2⟩ := hp _ _ _ _ _ h2
          obtain ⟨l3, c3⟩ := ih b2 ctx2 (dictInsert d key value) h
          exact ⟨by omega, ctxLE_trans (ctxLE_trans c1 c2) c3⟩
        · simp at h

theorem dictValue_parseWith_inv {p : P} (hp : PInv p)
    {m : Nat} {rest : List Nat} {ctx : ParserContext}
    {v : Value} {r : List Nat} {c : ParserContext}
    (h : DictValue.parseWith p (m :: rest) ctx = .ok (v, r, c)) :
    r.length < (m :: rest).length ∧ CtxLE ctx c := by
  simp only [DictValue.parseWith] at h
  cases h7 : read_7bit_encoded_int rest with
  | error e => rw [h7] at h; simp at h
  | ok val =>
    obtain ⟨n, b1⟩ := val
    rw [h7] at h
    simp only at h
    cases hl : dictLoop p n b1 ctx [] with
    | error e => rw [hl] at h; simp at h
    | ok val2 =>
      obtain ⟨d, rest', c'⟩ := val2
      rw [hl] at h
      simp only [Except.ok.injEq, Prod.mk.injEq] at h
      obtain ⟨-, rfl, rfl⟩ := h
      have := read_7bit_encoded_int_len h7
      obtain ⟨l2, c2⟩ := dictLoop_inv hp n b1 ctx [] hl
      exact ⟨by simp only [List.length_cons]; omega, c2⟩

theorem formattedString_parseWith_inv {p : P} (hp : PInv p)
    {m : Nat} {rest : List Nat} {ctx : ParserContext}
    {v : Value} {r : List Nat} {c : ParserContext}
    (h : FormattedString.parseWith p (m :: rest) ctx = .ok (v, r, c)) :
    r.length < (m :: rest).length ∧ CtxLE ctx c := by
  simp only [FormattedString.parseWith] at h
  split at h
  · simp at h
  · cases h1 : p rest ctx with
    | error e => rw [h1] at h; simp at h
    | ok val =>
      obtain ⟨tv, b1, ctx1⟩ := val
      rw [h1] at h
      simp only at h
      cases hs : StringValue.parseStr b1 with
      | error e => rw [hs] at h; simp at h
      | ok val2 =>
        obtain ⟨s, rest'⟩ := val2
        rw [hs] at h
        simp only at h
        obtain ⟨l1, c1⟩ := hp _ _ _ _ _ h1
        have l2 := stringValue_parseStr_len hs
        split at h <;>
        · simp only [Except.ok.injEq, Prod.mk.injEq] at h
          obtain ⟨-, rfl, rfl⟩ := h
          exact ⟨by simp only [List.length_cons]; omega, c1⟩

theorem sparseLoop_inv {p : P} (hp : PInv p) (length : Nat) :
    ∀ (k : Nat) (b : List Nat) (ctx : ParserContext) (arr : List Value)
      {arr' : List Value} {rest : List Nat} {c : ParserContext},
      sparseLoop p length k b ctx arr = .ok (arr', rest, c) →
        rest.length ≤ b.length ∧ CtxLE ctx c := by
  intro k
  induction k with
  | zero =>
    intro b ctx arr arr' rest c h
    simp only [sparseLoop, Except.ok.injEq, Prod.mk.injEq] at h
    obtain ⟨-, rfl, rfl⟩ := h
    exact ⟨Nat.le_refl _, ctxLE_refl _⟩
  | succ j ih =>
    intro b ctx arr arr' rest c h
    simp only [sparseLoop] at h
    cases h7 : read_7bit_encoded_int b with
    | error e => rw [h7] at h; simp at h
    | ok val =>
      obtain ⟨idx, b1⟩ := val
      rw [h7] at h
      simp only at h
      split at h
      · simp at h
      · cases h1 : p b1 ctx with
        | error e => rw [h1] at h; simp at h
        | ok val2 =>
          obtain ⟨v1, b2, ctx2⟩ := val2
          rw [h1] at h
          simp only at h
          have := read_7bit_encoded_int_len h7
          obtain ⟨l1, c1⟩ := hp _ _ _ _ _ h1
          obtain ⟨l2, c2⟩ := ih b2 ctx2 (arr.set idx v1) h
          exact ⟨by omega, ctxLE_trans c1 c2⟩

theorem sparseArray_parseWith_inv {p : P} (hp : PInv p)
    {m : Nat} {rest : List Nat} {ctx : ParserContext}
    {v : Value} {r : List Nat} {c : ParserContext}
    (h : SparseArray.parseWith p (m :: rest) ctx = .ok (v, r, c)) :
    r.length < (m :: rest).length ∧ CtxLE ctx c := by
  simp only [SparseArray.parseWith] at h
  split at h
  · simp at h
  · cases h1 : p rest ctx with
    | error e => rw [h1] at h; simp at h
    | ok val =>
      obtain ⟨tv, b1, ctx1⟩ := val
      rw [h1] at h
      simp only at h
      cases h7 : read_7bit_encoded_int b1 with
      | error e => rw [h7] at h; simp at h
      | ok val2 =>
        obtain ⟨length, b2⟩ := val2
        rw [h7] at h
        simp only at h
        cases h8 : read_7bit_encoded_int b2 with
        | error e => rw [h8] at h; simp at h
        | ok val3 =>
          obtain ⟨num, b3⟩ := val3
          rw [h8] at h
          simp only at h
          cases hl : sparseLoop p length num b3 ctx1 (List.replicate length .none) with
          | error e => rw [hl] at h; simp at h
          | ok val4 =>
            obtain ⟨arr, rest', c'⟩ := val4
            rw [hl] at h
            simp only [Except.ok.injEq, Prod.mk.injEq] at h
            obtain ⟨-, rfl, rfl⟩ := h
            obtain ⟨l1, c1⟩ := hp _ _ _ _ _ h1
            have := read_7bit_encoded_int_len h7
            have := read_7bit_encoded_int_len h8
            obtain ⟨l2, c2⟩ := sparseLoop_inv hp length num b3 ctx1 _ hl
            exact ⟨by simp only [List.length_cons]; omega, ctxLE_trans c1 c2⟩

/-- Every successful dispatch, at any fuel, strictly consumes input and only
appends to the context tables. -/
theorem parseF_inv : ∀ fuel, PInv (parseF fuel) := by
  intro fuel
  induction fuel with
  | zero => intro b ctx v r c h; simp [parseF] at h
  | succ f ih =>
    intro b ctx v r c h
    match b with
    | [] => simp [parseF] at h
    | m :: rest =>
      simp only [parseF] at h
      cases hreg : registry m with
      | none => rw [hreg] at h; simp at h
      | some rid =>
        rw [hreg] at h
        simp only at h
        cases rid <;> simp only [runRuleWith] at h
        case noop => exact noop_parse_inv h
        case noneConst => exact noneConst_parse_inv h
        case emptyConst => exact emptyConst_parse_inv h
        case zeroConst => exact zeroConst_parse_inv h
        case trueConst => exact trueConst_parse_inv h
        case falseConst => exact falseConst_parse_inv h
        case integer => exact integer_parse_inv h
        case byteValue => exact byteValue_parse_inv h
        case charValue => exact charValue_parse_inv h
        case stringValue => exact stringValue_parse_inv h
        case dateTimeValue => exact dateTimeValue_parse_inv h
        case doubleValue => exact doubleValue_parse_inv h
        case floatValue => exact floatValue_parse_inv h
        case rgba => exact rGBA_parse_inv h
        case knownColor => exact knownColor_parse_inv h
        case enumValue => exact enumValue_parse_inv h
        case colorEmpty => exact colorEmpty_parse_inv h
        case pairValue => exact pairValue_parseWith_inv ih h
        case tripletValue => exact tripletValue_parseWith_inv ih h
        case typedArray => exact typedArray_parseWith_inv ih h
        case stringArray => exact stringArray_parse_inv h
        case listValue => exact listValue_parseWith_inv ih h
        case dictValue => exact dictValue_parseWith_inv ih h
        case typeValue => exact typeValue_parse_inv h
        case unitValue => exact unitValue_parse_inv h
        case unitEmpty => exact unitEmpty_parse_inv h
        case indexedString => exact indexedString_parse_inv h
        case formattedString => exact formattedString_parseWith_inv ih h
        case binaryFormatted => exact binaryFormatted_parse_inv h
        case sparseArray => exact sparseArray_parseWith_inv ih h

/-- The dispatcher strictly consumes input and only appends to the tables. -/
theorem Parser.parse_inv : PInv Parser.parse := by
  intro b ctx v r c h
  exact parseF_inv (b.length + 1) b ctx v r c h

/-! ### The fuel is an artifact

Each composite rule only re-enters the decoder on strictly shorter buffers, so two
recursive decoders agreeing on inputs up to the payload length are interchangeable;
by induction any two sufficient fuels agree, and `Parser.parse` satisfies the
source's recursive equations literally (`Parser.parse_eq`). -/

theorem pairValue_parseWith_congr {p q : P} (hq : PLen q) {m : Nat} {rest : List Nat}
    {ctx : ParserContext}
    (h : ∀ b' ctx', b'.length ≤ rest.length → p b' ctx' = q b' ctx') :
    PairValue.parseWith p (m :: rest) ctx = PairValue.parseWith q (m :: rest) ctx := by
  simp only [PairValue.parseWith]
  split
  · rfl
  · rw [h rest ctx (Nat.le_refl _)]
    cases h1 : q rest ctx with
    | error e => rfl
    | ok val =>
      obtain ⟨v1, b1, ctx1⟩ := val
      simp only
      rw [h b1 ctx1 (Nat.le_of_lt (hq _ _ _ _ _ h1))]

theorem tripletValue_parseWith_congr {p q : P} (hq : PLen q) {m : Nat} {rest : List Nat}
    {ctx : ParserContext}
    (h : ∀ b' ctx', b'.length ≤ rest.length → p b' ctx' = q b' ctx') :
    TripletValue.parseWith p (m :: rest) ctx = TripletValue.parseWith q (m :: rest) ctx := by
  simp only [TripletValue.parseWith]
  split
  · rfl
  · rw [h rest ctx (Nat.le_refl _)]
    cases h1 : q rest ctx with
    | error e => rfl
    | ok val =>
      obtain ⟨v1, b1, ctx1⟩ := val
      have hb1 := hq _ _ _ _ _ h1
      simp only
      rw [h b1 ctx1 (Nat.le_of_lt hb1)]
      cases h2 : q b1 ctx1 with
      | error e => rfl
      | ok val2 =>
        obtain ⟨v2, b2, ctx2⟩ := val2
        have hb2 := hq _ _ _ _ _ h2
        simp only
        rw [h b2 ctx2 (by omega)]

theorem parseManyLoop_congr {p q : P} (hq : PLen q) :
    ∀ (n : Nat) (b : List Nat) (ctx : ParserContext),
      (∀ b' ctx', b'.length ≤ b.length → p b' ctx' = q b' ctx') →
      parseManyLoop p n b ctx = parseManyLoop q n b ctx := by
  intro n
  induction n with
  | zero => intro b ctx h; rfl
  | succ k ih =>
    intro b ctx h
    simp only [parseManyLoop]
    rw [h b ctx (Nat.le_refl _)]
    cases h1 : q b ctx with
    | error e => rfl
    | ok val =>
      obtain ⟨v1, b1, ctx1⟩ := val
      have hb1 := hq _ _ _ _ _ h1
      simp only
      rw [ih b1 ctx1 (fun b' ctx' hb' => h b' ctx' (by omega))]

theorem typedArray_parseWith_congr {p q : P} (hq : PLen q) {m : Nat} {rest : List Nat}
    {ctx : ParserContext}
    (h : ∀ b' ctx', b'.length ≤ rest.length → p b' ctx' = q b' ctx') :
    TypedArray.parseWith p (m :: rest) ctx = TypedArray.parseWith q (m :: rest) ctx := by
  simp only [TypedArray.parseWith]
  split
  · rfl
  · rw [h rest ctx (Nat.le_refl _)]
    cases h1 : q rest ctx with
    | error e => rfl
    | ok val =>
      obtain ⟨v1, b1, ctx1⟩ := val
      have hb1 := hq _ _ _ _ _ h1
      simp only
      cases h7 : read_7bit_encoded_int b1 with
      | error e => rfl
      | ok val2 =>
        obtain ⟨n, b2⟩ := val2
        have hb2 := read_7bit_encoded_int_len h7
        simp only
        rw [parseManyLoop_congr hq n b2 ctx1 (fun b' ctx' hb' => h b' ctx' (by omega))]

theorem listValue_parseWith_congr {p q : P} (hq : PLen q) {m : Nat} {rest : List Nat}
    {ctx : ParserContext}
    (h : ∀ b' ctx', b'.length ≤ rest.length → p b' ctx' = q b' ctx') :
    ListValue.parseWith p (m :: rest) ctx = ListValue.parseWith q (m :: rest) ctx := by
  simp only [ListValue.parseWith]
  split
  · rfl
  · cases h7 : read_7bit_encoded_int rest with
    | error e => rfl
    | ok val =>
      obtain ⟨n, b1⟩ := val
      have hb1 := read_7bit_encoded_int_len h7
      simp only
      rw [parseManyLoop_congr hq n b1 ctx (fun b' ctx' hb' => h b' ctx' (by omega))]

theorem dictLoop_congr {p q : P} (hq : PLen q) :
    ∀ (n : Nat) (b : List Nat) (ctx : ParserContext) (d : List (Value × Value)),
      (∀ b' ctx', b'.length ≤ b.length → p b' ctx' = q b' ctx') →
      dictLoop p n b ctx d = dictLoop q n b ctx d := by
  intro n
  induction n with
  | zero => intro b ctx d h; rfl
  | succ k ih =>
    intro b ctx d h
    simp only [dictLoop]
    rw [h b ctx (Nat.le_refl _)]
    cases h1 : q b ctx with
    | error e => rfl
    | ok val =>
      obtain ⟨key, b1, ctx1⟩ := val
      have hb1 := hq _ _ _ _ _ h1
      simp only
      rw [h b1 ctx1 (by omega)]
      cases h2 : q b1 ctx1 with
      | error e => rfl
      | ok val2 =>
        obtain ⟨value, b2, ctx2⟩ := val2
        have hb2 := hq _ _ _ _ _ h2
        simp only
        split
        · rw [ih b2 ctx2 _ (fun b' ctx' hb' => h b' ctx' (by omega))]
        · rfl

theorem dictValue_parseWith_congr {p q : P} (hq : PLen q) {m : Nat} {rest : List Nat}
    {ctx : ParserContext}
    (h : ∀ b' ctx', b'.length ≤ rest.length → p b' ctx' = q b' ctx') :
    DictValue.parseWith p (m :: rest) ctx = DictValue.parseWith q (m :: rest) ctx := by
  simp only [DictValue.parseWith]
  cases h7 : read_7bit_encoded_int rest with
  | error e => rfl
  | ok val =>
    obtain ⟨n, b1⟩ := val
    have hb1 := read_7bit_encoded_int_len h7
    simp only
    rw [dictLoop_congr hq n b1 ctx [] (fun b' ctx' hb' => h b' ctx' (by omega))]

theorem formattedString_parseWith_congr {p q : P} {m : Nat} {rest : List Nat}
    {ctx : ParserContext}
    (h : ∀ b' ctx', b'.length ≤ rest.length → p b' ctx' = q b' ctx') :
    FormattedString.parseWith p (m :: rest) ctx =
      FormattedString.parseWith q (m :: rest) ctx := by
  simp only [FormattedString.parseWith]
  split
  · rfl
  · rw [h rest ctx (Nat.le_refl _)]

theorem sparseLoop_congr {p q : P} (hq : PLen q) (length : Nat) :
    ∀ (k : Nat) (b : List Nat) (ctx : ParserContext) (arr : List Value),
      (∀ b' ctx', b'.length ≤ b.length → p b' ctx' = q b' ctx') →
      sparseLoop p length k b ctx arr = sparseLoop q length k b ctx arr := by
  intro k
  induction k with
  | zero => intro b ctx arr h; rfl
  | succ j ih =>
    intro b ctx arr h
    simp only [sparseLoop]
    cases h7 : read_7bit_encoded_int b with
    | error e => rfl
    | ok val =>
      obtain ⟨idx, b1⟩ := val
      have hb1 := read_7bit_encoded_int_len h7
      simp only
      split
      · rfl
      · rw [h b1 ctx (by omega)]
        cases h1 : q b1 ctx with
        | error e => rfl
        | ok val2 =>
          obtain ⟨v1, b2, ctx2⟩ := val2
          have hb2 := hq _ _ _ _ _ h1
          simp only
          rw [ih b2 ctx2 _ (fun b' ctx' hb' => h b' ctx' (by omega))]

theorem sparseArray_parseWith_congr {p q : P} (hq : PLen q) {m : Nat} {rest : List Nat}
    {ctx : ParserContext}
    (h : ∀ b' ctx', b'.length ≤ rest.length → p b' ctx' = q b' ctx') :
    SparseArray.parseWith p (m :: rest) ctx = SparseArray.parseWith q (m :: rest) ctx := by
  simp only [SparseArray.parseWith]
  split
  · rfl
  · rw [h rest ctx (Nat.le_refl _)]
    cases h1 : q rest ctx with
    | error e => rfl
    | ok val =>
      obtain ⟨v1, b1, ctx1⟩ := val
      have hb1 := hq _ _ _ _ _ h1
      simp only
      cases h7 : read_7bit_encoded_int b1 with
      | error e => rfl
      | ok val2 =>
        obtain ⟨length, b2⟩ := val2
        have hb2 := read_7bit_encoded_int_len h7
        simp only
        cases h8 : read_7bit_encoded_int b2 with
        | error e => rfl
        | ok val3 =>
          obtain ⟨num, b3⟩ := val3
          have hb3 := read_7bit_encoded_int_len h8
          simp only
          rw [sparseLoop_congr hq length num b3 ctx1 _
            (fun b' ctx' hb' => h b' ctx' (by omega))]

/-- Any two sufficient fuels produce the same result. -/
theorem parseF_ext : ∀ (k : Nat) (b : List Nat) (f g : Nat) (ctx : ParserContext),
    b.length = k → k < f → k < g → parseF f b ctx = parseF g b ctx := by
  intro k
  induction k using Nat.strong_induction_on with
  | _ k ih =>
    intro b f g ctx hk hf hg
    obtain ⟨f', rfl⟩ : ∃ f', f = f' + 1 := ⟨f - 1, by omega⟩
    obtain ⟨g', rfl⟩ : ∃ g', g = g' + 1 := ⟨g - 1, by omega⟩
    match b with
    | [] => rfl
    | m :: rest =>
      simp only [parseF]
      cases hreg : registry m with
      | none => rfl
      | some rid =>
        simp only
        have hlen : rest.length + 1 = k := by simpa using hk
        have hcall : ∀ b' ctx', b'.length ≤ rest.length →
            parseF f' b' ctx' = parseF g' b' ctx' := by
          intro b' ctx' hb'
          exact ih b'.length (by omega) b' f' g' ctx' rfl (by omega) (by omega)
        have hq : PLen (fun b' ctx' => parseF g' b' ctx') :=
          fun b' ctx' v r c h => (parseF_inv g' b' ctx' v r c h).1
        cases rid
        case pairValue => exact pairValue_parseWith_congr hq hcall
        case tripletValue => exact tripletValue_parseWith_congr hq hcall
        case typedArray => exact typedArray_parseWith_congr hq hcall
        case listValue => exact listValue_parseWith_congr hq hcall
        case dictValue =>
          simp only [runRuleWith]
          exact dictValue_parseWith_congr hq hcall
        case formattedString => exact formattedString_parseWith_congr hcall
        case sparseArray => exact sparseArray_parseWith_congr hq hcall
        all_goals rfl

/-- `Parser.parse` satisfies the source's recursive equations verbatim: fail on an
empty buffer, look the first byte up in the registry, and hand the full buffer to
the matched rule, whose nested values re-enter `Parser.parse` itself.  The fuel in
the definition is therefore invisible. -/
theorem Parser.parse_eq (b : List Nat) (ctx : ParserContext) :
    Parser.parse b ctx =
      match b with
      | [] => .error (.vse .noData)
      | m :: _ =>
        match registry m with
        | none => .error (.vse (.unknownMarker m))
        | some rid => runRuleWith Parser.parse rid b ctx := by
  match b with
  | [] => rfl
  | m :: rest =>
    show parseF (rest.length + 2) (m :: rest) ctx = _
    simp only [parseF]
    cases hreg : registry m with
    | none => rfl
    | some rid =>
      simp only
      have hcall : ∀ b' ctx', b'.length ≤ rest.length →
          parseF (rest.length + 1) b' ctx' = Parser.parse b' ctx' := by
        intro b' ctx' hb'
        exact parseF_ext b'.length b' (rest.length + 1) (b'.length + 1) ctx' rfl
          (by omega) (by omega)
      have hq : PLen Parser.parse := Parser.parse_inv.len
      cases rid
      case pairValue => exact pairValue_parseWith_congr hq hcall
      case tripletValue => exact tripletValue_parseWith_congr hq hcall
      case typedArray => exact typedArray_parseWith_congr hq hcall
      case listValue => exact listValue_parseWith_congr hq hcall
      case dictValue =>
        simp only [runRuleWith]
        exact dictValue_parseWith_congr hq hcall
      case formattedString => exact formattedString_parseWith_congr hcall
      case sparseArray => exact sparseArray_parseWith_congr hq hcall
      all_goals rfl

/-- Dispatch on a non-empty buffer, with the registry lookup exposed. -/
theorem Parser.parse_cons_eq (m : Nat) (rest : List Nat) (ctx : ParserContext) :
    Parser.parse (m :: rest) ctx =
      match registry m with
      | none => .error (.vse (.unknownMarker m))
      | some rid => runRuleWith Parser.parse rid (m :: rest) ctx :=
  Parser.parse_eq _ _

/-! ### The varint round-trip -/

/-- The 7-bit group encoding of an unsigned integer: each byte carries the next
lowest 7 bits, with the high bit set on every byte except the last. -/
def encode7bit (n : Nat) : List Nat :=
  if n < 0x80 then [n]
  else (n % 0x80 + 0x80) :: encode7bit (n / 0x80)
  decreasing_by exact Nat.div_lt_self (by omega) (by omega)

theorem encode7bit_lt {n : Nat} (h : n < 128) : encode7bit n = [n] := by
  rw [encode7bit]
  simp [h]

theorem encode7bit_ge {n : Nat} (h : ¬n < 128) :
    encode7bit n = (n % 128 + 128) :: encode7bit (n / 128) := by
  rw [encode7bit]
  simp [h]

theorem and_128_eq_zero {t : Nat} (h : t < 128) : t &&& 128 = 0 := by
  apply Nat.eq_of_testBit_eq
  intro i
  have h128 : (128 : Nat) = 2 ^ 7 := by norm_num
  rcases eq_or_ne i 7 with rfl | hi
  · simp only [Nat.testBit_and, Nat.zero_testBit]
    rw [Nat.testBit_lt_two_pow (by omega)]
    simp
  · simp only [Nat.testBit_and, Nat.zero_testBit, h128]
    rw [Nat.testBit_two_pow_of_ne (fun hc => hi hc.symm)]
    simp

theorem and_128_ne_zero {m : Nat} : (128 + m % 128) &&& 128 ≠ 0 := by
  intro hc
  have h7 : ((128 + m % 128) &&& 128).testBit 7 = false := by rw [hc]; simp
  have ha : (128 + m % 128).testBit 7 = true := by
    rw [show (128 + m % 128 : Nat) = 2 ^ 7 + m % 128 by norm_num,
      Nat.testBit_two_pow_add_eq,
      Nat.testBit_lt_two_pow (show m % 128 < 2 ^ 7 by omega)]
    rfl
  have hb : (128 : Nat).testBit 7 = true := by
    rw [show (128 : Nat) = 2 ^ 7 by norm_num]
    exact Nat.testBit_two_pow_self
  rw [Nat.testBit_and, ha, hb] at h7
  simp at h7

/-- The two 7-bit halves of `m`, shifted into place, reassemble `m <<< s`. -/
theorem split7_lor (m s : Nat) :
    ((m % 128) <<< s) ||| ((m / 128) <<< (s + 7)) = m <<< s := by
  apply Nat.eq_of_testBit_eq
  intro j
  have hm : m = 2 ^ 7 * (m / 128) + m % 128 := by omega
  simp only [Nat.testBit_or, Nat.testBit_shiftLeft]
  rcases Nat.lt_or_ge j s with hj | hj
  · simp [show ¬s ≤ j by omega, show ¬s + 7 ≤ j by omega]
  · rcases Nat.lt_or_ge j (s + 7) with hj7 | hj7
    · have h1 : m.testBit (j - s) = (m % 128).testBit (j - s) := by
        conv_lhs => rw [hm]
        rw [Nat.testBit_mul_pow_two_add _ (by omega)]
        simp [show j - s < 7 by omega]
      simp [show ¬s + 7 ≤ j by omega, show s ≤ j from hj, h1]
    · have h1 : m.testBit (j - s) = (m / 128).testBit (j - s - 7) := by
        conv_lhs => rw [hm]
        rw [Nat.testBit_mul_pow_two_add _ (by omega)]
        simp [show ¬j - s < 7 by omega]
      have h2 : (m % 128).testBit (j - s) = false :=
        Nat.testBit_lt_two_pow (by calc m % 128 < 2 ^ 7 := by omega
                                     _ ≤ 2 ^ (j - s) := Nat.pow_le_pow_right (by omega) (by omega))
      simp [show s ≤ j by omega, show s + 7 ≤ j from hj7, h1, h2,
        show j - (s + 7) = j - s - 7 by omega]

/-- Decoding the 7-bit encoding of `n`, at any accumulator and shift, adds
`n <<< shift` to the accumulator and stops exactly at the end of the encoding. -/
theorem sevenBitLoop_encode (err : PyErr) :
    ∀ (n acc shift : Nat) (rest : List Nat),
      sevenBitLoop err (encode7bit n ++ rest) acc shift =
        .ok (acc ||| (n <<< shift), rest) := by
  intro n
  induction n using Nat.strong_induction_on with
  | _ n ih =>
    intro acc shift rest
    rcases Nat.lt_or_ge n 128 with h | h
    · rw [encode7bit_lt h]
      simp only [List.cons_append, List.nil_append, sevenBitLoop]
      rw [if_pos (and_128_eq_zero h)]
      have : n &&& 127 = n := by
        have : (127 : Nat) = 2 ^ 7 - 1 := by norm_num
        rw [this, Nat.and_pow_two_sub_one_eq_mod]
        omega
      rw [this]
      simp
    · rw [encode7bit_ge (by omega)]
      simp only [List.cons_append, sevenBitLoop]
      rw [if_neg (by rw [show n % 128 + 128 = 128 + n % 128 by omega]; exact and_128_ne_zero)]
      simp only [List.append_eq]
      rw [ih (n / 128) (Nat.div_lt_self (by omega) (by omega)) _ (shift + 7) rest]
      have hmask : (n % 128 + 128) &&& 127 = n % 128 := by
        have h127 : (127 : Nat) = 2 ^ 7 - 1 := by norm_num
        rw [h127, Nat.and_pow_two_sub_one_eq_mod]
        omega
      rw [hmask, Nat.lor_assoc, split7_lor]

/-! ### Helpers for the dict and deep-nesting claims -/

/-- The byte stream of `d` nested pair productions: each level is a pair marker
whose first component nests one level deeper and whose second component is the
empty-string constant. -/
def nestPair : Nat → List Nat
  | 0 => [0x65]
  | d+1 => 0x0F :: (nestPair d ++ [0x65])

/-- The value `nestPair d` decodes to. -/
def nestVal : Nat → Value
  | 0 => .str ""
  | d+1 => .pair (nestVal d) (.str "")

theorem parse_emptyConst (rest : List Nat) (ctx : ParserContext) :
    Parser.parse (0x65 :: rest) ctx = .ok (.str "", rest, ctx) := by
  rw [Parser.parse_cons_eq]
  rfl

/-- Nested pairs of every depth decode successfully (there is no recursion guard),
to the expected nested value, with nothing left over and the context untouched. -/
theorem nestPair_parse : ∀ (d : Nat) (rest : List Nat) (ctx : ParserContext),
    Parser.parse (nestPair d ++ rest) ctx = .ok (nestVal d, rest, ctx) := by
  intro d
  induction d with
  | zero => intro rest ctx; exact parse_emptyConst rest ctx
  | succ d ih =>
    intro rest ctx
    rw [show nestPair (d+1) ++ rest = 0x0F :: (nestPair d ++ (0x65 :: rest)) by
      simp [nestPair, List.append_assoc]]
    rw [Parser.parse_cons_eq]
    show PairValue.parseWith Parser.parse (0x0F :: (nestPair d ++ (0x65 :: rest))) ctx = _
    simp only [PairValue.parseWith]
    rw [if_neg (by simp)]
    rw [ih (0x65 :: rest) ctx]
    simp only
    rw [parse_emptyConst rest ctx]
    rfl

/-- Reading a varint whose first byte has a clear high bit yields that byte. -/
theorem read_7bit_single {t : Nat} (h : t < 128) (rest : List Nat) :
    read_7bit_encoded_int (t :: rest) = .ok (t, rest) := by
  simp only [read_7bit_encoded_int, sevenBitLoop]
  rw [if_pos (and_128_eq_zero h)]
  have hm : t &&& 127 = t := by
    rw [show (127 : Nat) = 2 ^ 7 - 1 by norm_num, Nat.and_pow_two_sub_one_eq_mod]
    omega
  rw [hm]
  simp

/-! ### The claims -/

/-- C1: for every input whose first two bytes are 0xFF 0x01 and whose root value
decodes successfully, `parse_viewstate` classifies the bytes left after the root
value — length 0 gives `macEnabled = false`, length 20 or 32 gives
`macEnabled = true`, any other length fails with the invalid-trailer-length error —
and in the success cases the returned `raw` is the input with exactly the two
header bytes removed. -/
theorem claim_envelope_trailer (body : List Nat) (v : Value) (remain : List Nat)
    (ctx' : ParserContext)
    (h : Parser.parse body ParserContext.empty = .ok (v, remain, ctx')) :
    (remain.length = 0 →
      parse_viewstate (0xFF :: 0x01 :: body) =
        .ok ⟨v, false, (0xFF :: 0x01 :: body).drop 2⟩) ∧
    (remain.length = 20 ∨ remain.length = 32 →
      parse_viewstate (0xFF :: 0x01 :: body) =
        .ok ⟨v, true, (0xFF :: 0x01 :: body).drop 2⟩) ∧
    (remain.length ≠ 0 → remain.length ≠ 20 → remain.length ≠ 32 →
      parse_viewstate (0xFF :: 0x01 :: body) =
        .error (.vse (.invalidTrailer remain.length))) := by
  simp only [parse_viewstate, h]
  refine ⟨fun h0 => ?_, fun h2032 => ?_, fun h0 h20 h32 => ?_⟩
  · rw [if_pos h0]
    rfl
  · rw [if_neg (show ¬remain.length = 0 by rcases h2032 with h' | h' <;> omega),
      if_pos h2032]
    rfl
  · rw [if_neg h0,
      if_neg (show ¬(remain.length = 20 ∨ remain.length = 32) by tauto)]
    rfl

/-- Witness for C1: the root empty-string constant with no trailer. -/
theorem claim_envelope_trailer_witness :
    parse_viewstate [0xFF, 0x01, 0x65] = .ok ⟨.str "", false, [0x65]⟩ :=
  (claim_envelope_trailer [0x65] (.str "") [] ParserContext.empty rfl).1 rfl

/-- C2 (the code fails this claim): a truncated varint does fail inside the
exception family with the end-of-data message, but a byte marker (or char marker)
with no payload byte reaches the unguarded `b[1]` and escapes with a host
`IndexError` instead of any `ViewStateException`. -/
theorem claim_truncated_reads :
    parse_viewstate [0xFF, 0x01, 0x02, 0x80] = .error (.vse .endOfDataInteger) ∧
    read_7bit_encoded_int [0x80] = .error (.vse .endOfData7bit) ∧
    parse_viewstate [0xFF, 0x01, 0x03] = .error .indexError ∧
    parse_viewstate [0xFF, 0x01, 0x04] = .error .indexError :=
  ⟨rfl, rfl, rfl, rfl⟩

/-- C3: encoding any `n ≤ 2^32 − 1` as little-endian 7-bit groups and decoding it
back returns exactly `n` and consumes exactly the encoded bytes. -/
theorem claim_varint_roundtrip (n : Nat) (rest : List Nat) (h : n ≤ 2 ^ 32 - 1) :
    read_7bit_encoded_int (encode7bit n ++ rest) = .ok (n, rest) := by
  have hgen := sevenBitLoop_encode (.vse .endOfData7bit) n 0 0 rest
  simpa [read_7bit_encoded_int] using hgen

/-- Witness for C3 at `n = 300`. -/
theorem claim_varint_roundtrip_witness :
    300 ≤ 2 ^ 32 - 1 ∧ read_7bit_encoded_int (encode7bit 300 ++ []) = .ok (300, []) :=
  ⟨by norm_num, claim_varint_roundtrip 300 [] (by norm_num)⟩

/-- C4: across every successful decode the type table and string table only grow by
appending at the end (each table of the final context extends the initial one), and
a type-table or string-table back-reference whose index is not strictly below the
table's current length fails with the corresponding invalid-reference error. -/
theorem claim_backref_tables :
    (∀ (b : List Nat) (ctx : ParserContext) (v : Value) (r : List Nat)
        (c : ParserContext),
      Parser.parse b ctx = .ok (v, r, c) →
        TableLE ctx.type_table c.type_table ∧ TableLE ctx.string_table c.string_table) ∧
    (∀ (b : List Nat) (ctx : ParserContext) (idx : Nat) (rest : List Nat),
      read_7bit_encoded_int b = .ok (idx, rest) → ctx.type_table.length ≤ idx →
        TypeValue.parse (0x19 :: 0x2B :: b) ctx = .error (.vse .invalidTypeRefIndex)) ∧
    (∀ (ctx : ParserContext) (idx : Nat) (rest : List Nat),
      ctx.string_table.length ≤ idx →
        IndexedString.parse (0x1F :: idx :: rest) ctx =
          .error (.vse .invalidStringRefIndex)) := by
  refine ⟨fun b ctx v r c h => (Parser.parse_inv b ctx v r c h).2, ?_, ?_⟩
  · intro b ctx idx rest h7 hlen
    have hnone : ctx.get_type idx = none := List.get?_eq_none.mpr hlen
    simp [TypeValue.parse, TypeValue.parseStr, h7, hnone]
  · intro ctx idx rest hlen
    have hnone : ctx.get_string idx = none := List.get?_eq_none.mpr hlen
    simp [IndexedString.parse, hnone]

/-- Witness for C4: a new type name lands in the table by appending, and an
out-of-range back-reference at the empty table fails. -/
theorem claim_backref_tables_witness :
    TableLE ([] : List String) ["foo"] ∧
    TypeValue.parse [0x19, 0x2B, 0x00] ParserContext.empty =
      .error (.vse .invalidTypeRefIndex) := by
  constructor
  · exact (claim_backref_tables.1 [0x19, 0x05, 0x03, 0x66, 0x6F, 0x6F]
      ParserContext.empty (.str "foo") [] ⟨["foo"], []⟩ rfl).1
  · exact claim_backref_tables.2.1 [0x00] ParserContext.empty 0 [] rfl
      (by simp [ParserContext.empty])

/-- C5: a sparse-array production declaring full length 5 with two entries at
transmitted indices 1 and 3 decodes to a five-element array with `None` at
positions 0, 2, 4 and the two decoded values at positions 1 and 3 in order; and in
every sparse-array entry loop, a transmitted index not strictly below the declared
full length fails with the invalid-sparse-index error (before the entry's value is
even parsed). -/
theorem claim_sparse_array :
    (∀ (tb e1 e2 rest : List Nat) (ctx ctx1 ctx2 ctx3 : ParserContext)
        (tv v1 v3 : Value),
      Parser.parse (tb ++ (0x05 :: 0x02 :: 0x01 :: (e1 ++ 0x03 :: (e2 ++ rest)))) ctx =
        .ok (tv, 0x05 :: 0x02 :: 0x01 :: (e1 ++ 0x03 :: (e2 ++ rest)), ctx1) →
      Parser.parse (e1 ++ 0x03 :: (e2 ++ rest)) ctx1 =
        .ok (v1, 0x03 :: (e2 ++ rest), ctx2) →
      Parser.parse (e2 ++ rest) ctx2 = .ok (v3, rest, ctx3) →
      SparseArray.parse
          (0x3C :: (tb ++ (0x05 :: 0x02 :: 0x01 :: (e1 ++ 0x03 :: (e2 ++ rest))))) ctx =
        .ok (.list [.none, v1, .none, v3, .none], rest, ctx3)) ∧
    (∀ (p : P) (len k : Nat) (b b1 : List Nat) (ctx : ParserContext)
        (arr : List Value) (idx : Nat),
      read_7bit_encoded_int b = .ok (idx, b1) → len ≤ idx →
      sparseLoop p len (k + 1) b ctx arr = .error (.vse .invalidSparseIndex)) := by
  constructor
  · intro tb e1 e2 rest ctx ctx1 ctx2 ctx3 tv v1 v3 htype h1 h3
    simp [SparseArray.parse, SparseArray.parseWith, htype, h1, h3, sparseLoop,
      read_7bit_single (show (5 : Nat) < 128 by norm_num),
      read_7bit_single (show (2 : Nat) < 128 by norm_num),
      read_7bit_single (show (1 : Nat) < 128 by norm_num),
      read_7bit_single (show (3 : Nat) < 128 by norm_num),
      List.replicate, List.set]
  · intro p len k b b1 ctx arr idx h7 hlen
    simp only [sparseLoop]
    rw [h7]
    simp only
    rw [if_pos (show idx ≥ len by omega)]

/-- Witness for C5: type descriptor `None`, values 0 and `True` at indices 1 and 3. -/
theorem claim_sparse_array_witness :
    SparseArray.parse [0x3C, 0x64, 0x05, 0x02, 0x01, 0x66, 0x03, 0x67]
        ParserContext.empty =
      .ok (.list [.none, .int 0, .none, .bool true, .none], [], ParserContext.empty) :=
  claim_sparse_array.1 [0x64] [0x66] [0x67] [] ParserContext.empty ParserContext.empty
    ParserContext.empty ParserContext.empty Value.none (.int 0) (.bool true) rfl rfl rfl

/-- C6 counterexample: decoding the whole stream
`FF 01 19 05 03 66 6F 6F 19 2B 00` does not succeed at all — only the first
type-ref is the root value, three bytes remain, and the envelope decoder rejects
the stream with an invalid-trailer-length error (3 is not 0, 20 or 32). -/
theorem claim_backref_example_cex :
    parse_viewstate [0xFF, 0x01, 0x19, 0x05, 0x03, 0x66, 0x6F, 0x6F, 0x19, 0x2B, 0x00] =
      .error (.vse (.invalidTrailer 3)) := rfl

/-- C6 (amended): parsing the post-header bytes of that stream as two consecutive
productions with one shared context yields the identical string "foo" twice; and in
general a type name or indexable string first decoded in its new-value form against
an empty table is stored at index 0, and a later reference form pointing at index 0
returns exactly the stored table entry. -/
theorem claim_backref_example_amended :
    (Parser.parse [0x19, 0x05, 0x03, 0x66, 0x6F, 0x6F, 0x19, 0x2B, 0x00]
        ParserContext.empty = .ok (.str "foo", [0x19, 0x2B, 0x00], ⟨["foo"], []⟩) ∧
      Parser.parse [0x19, 0x2B, 0x00] ⟨["foo"], []⟩ =
        .ok (.str "foo", [], ⟨["foo"], []⟩)) ∧
    (∀ (ctx : ParserContext) (s : String) (rest : List Nat),
      ctx.type_table.get? 0 = some s →
      TypeValue.parse (0x19 :: 0x2B :: 0x00 :: rest) ctx = .ok (.str s, rest, ctx)) ∧
    (∀ (ctx : ParserContext) (sb : List Nat) (s : String) (rest : List Nat),
      ctx.type_table = [] → StringValue.parseStr sb = .ok (s, rest) →
      TypeValue.parse (0x19 :: sb) ctx =
        .ok (.str s, rest, { ctx with type_table := [s] })) ∧
    (∀ (ctx : ParserContext) (s : String) (rest : List Nat),
      ctx.string_table.get? 0 = some s →
      IndexedString.parse (0x1F :: 0x00 :: rest) ctx = .ok (.str s, rest, ctx)) ∧
    (∀ (ctx : ParserContext) (sb : List Nat) (s : String) (rest : List Nat),
      ctx.string_table = [] → StringValue.parseStr sb = .ok (s, rest) →
      IndexedString.parse (0x1E :: sb) ctx =
        .ok (.str s, rest, { ctx with string_table := [s] })) := by
  refine ⟨⟨rfl, rfl⟩, ?_, ?_, ?_, ?_⟩
  · intro ctx s rest hget
    have hsome : ctx.get_type 0 = some s := hget
    simp [TypeValue.parse, TypeValue.parseStr,
      read_7bit_single (show (0 : Nat) < 128 by norm_num), hsome]
  · intro ctx sb s rest htt hs
    obtain ⟨t, rfl⟩ := stringValue_parseStr_head hs
    simp [TypeValue.parse, TypeValue.parseStr, hs, ParserContext.add_type, htt]
  · intro ctx s rest hget
    have hsome : ctx.get_string 0 = some s := hget
    simp [IndexedString.parse, hsome]
  · intro ctx sb s rest hst hs
    simp [IndexedString.parse, hs, ParserContext.add_string, hst]

/-- Witness for C6 (amended): a reference to index 0 returns the stored entry. -/
theorem claim_backref_example_witness :
    TypeValue.parse [0x19, 0x2B, 0x00, 0x07] ⟨["foo"], []⟩ =
      .ok (.str "foo", [0x07], ⟨["foo"], []⟩) :=
  claim_backref_example_amended.2.1 ⟨["foo"], []⟩ "foo" [0x07] rfl

/-- C7 counterexample: the rule bodies do not operate on a marker-stripped payload —
`Integer.parse` invoked on the bare varint payload `AC 02` re-examines the first
byte as a marker and fails, while the dispatcher route on `02 AC 02` (which hands
the rule the full buffer, marker included) succeeds with 300. -/
theorem claim_dispatch_cex :
    Integer.parse [0xAC, 0x02] ParserContext.empty =
      .error (.vse (.invalidMarker "Integer")) ∧
    Parser.parse [0x02, 0xAC, 0x02] ParserContext.empty =
      .ok (.int 300, [], ParserContext.empty) :=
  ⟨rfl, rfl⟩

/-- C7 (amended): the dispatcher examines the marker byte without consuming it and
passes the full buffer, marker included, to the matched rule; rules consume the
marker themselves.  The rules with an explicit guard — Integer, Byte, Char, String,
DateTime, Double, Float, RGBA, KnownColor, Enum, Color.Empty, Pair, Triplet,
TypedArray, StringArray, List, Type, Unit, Unit.Empty, FormattedString,
BinaryFormatted and SparseArray — re-validate the marker and fail with their
invalid-marker error on any other first byte, while Noop, the five constant rules,
DictValue and IndexedString consume the first byte without examining it (DictValue
parses the same payload under any consumed first byte, e.g. an empty dict from
`99 00`; a non-0x1F first byte routes IndexedString into its new-string branch).
A marker byte with no registered rule, such as 0xFE in `FF 01 FE`, fails with the
unknown-marker error carrying that byte. -/
theorem claim_dispatch_amended :
    (∀ (rest : List Nat) (ctx : ParserContext),
      Parser.parse (0xFE :: rest) ctx = .error (.vse (.unknownMarker 0xFE))) ∧
    (∀ (m : Nat) (rest : List Nat) (ctx : ParserContext) (rid : RuleId),
      registry m = some rid →
      Parser.parse (m :: rest) ctx = runRuleWith Parser.parse rid (m :: rest) ctx) ∧
    (∀ (m : Nat) (rest : List Nat) (ctx : ParserContext), m ≠ 0x02 →
      Integer.parse (m :: rest) ctx = .error (.vse (.invalidMarker "Integer"))) ∧
    (∀ (m : Nat) (rest : List Nat) (ctx : ParserContext), m ≠ 0x03 →
      ByteValue.parse (m :: rest) ctx = .error (.vse (.invalidMarker "Byte"))) ∧
    (∀ (m : Nat) (rest : List Nat) (ctx : ParserContext), m ≠ 0x04 →
      CharValue.parse (m :: rest) ctx = .error (.vse (.invalidMarker "Char"))) ∧
    (∀ (m : Nat) (rest : List Nat) (ctx : ParserContext), m ≠ 0x05 →
      StringValue.parse (m :: rest) ctx = .error (.vse (.invalidMarker "String"))) ∧
    (∀ (m : Nat) (rest : List Nat) (ctx : ParserContext), m ≠ 0x06 →
      DateTimeValue.parse (m :: rest) ctx = .error (.vse (.invalidMarker "DateTime"))) ∧
    (∀ (m : Nat) (rest : List Nat) (ctx : ParserContext), m ≠ 0x07 →
      DoubleValue.parse (m :: rest) ctx = .error (.vse (.invalidMarker "Double"))) ∧
    (∀ (m : Nat) (rest : List Nat) (ctx : ParserContext), m ≠ 0x08 →
      FloatValue.parse (m :: rest) ctx = .error (.vse (.invalidMarker "Float"))) ∧
    (∀ (m : Nat) (rest : List Nat) (ctx : ParserContext), m ≠ 0x09 →
      RGBA.parse (m :: rest) ctx = .error (.vse (.invalidMarker "RGBA"))) ∧
    (∀ (m : Nat) (rest : List Nat) (ctx : ParserContext), m ≠ 0x0A →
      KnownColor.parse (m :: rest) ctx = .error (.vse (.invalidMarker "KnownColor"))) ∧
    (∀ (m : Nat) (rest : List Nat) (ctx : ParserContext), m ≠ 0x0B →
      EnumValue.parse (m :: rest) ctx = .error (.vse (.invalidMarker "Enum"))) ∧
    (∀ (m : Nat) (rest : List Nat) (ctx : ParserContext), m ≠ 0x0C →
      ColorEmpty.parse (m :: rest) ctx = .error (.vse (.invalidMarker "Color.Empty"))) ∧
    (∀ (m : Nat) (rest : List Nat) (ctx : ParserContext), m ≠ 0x0F →
      PairValue.parse (m :: rest) ctx = .error (.vse (.invalidMarker "Pair"))) ∧
    (∀ (m : Nat) (rest : List Nat) (ctx : ParserContext), m ≠ 0x10 →
      TripletValue.parse (m :: rest) ctx = .error (.vse (.invalidMarker "Triplet"))) ∧
    (∀ (m : Nat) (rest : List Nat) (ctx : ParserContext), m ≠ 0x14 →
      TypedArray.parse (m :: rest) ctx = .error (.vse (.invalidMarker "TypedArray"))) ∧
    (∀ (m : Nat) (rest : List Nat) (ctx : ParserContext), m ≠ 0x15 →
      StringArray.parse (m :: rest) ctx = .error (.vse (.invalidMarker "StringArray"))) ∧
    (∀ (m : Nat) (rest : List Nat) (ctx : ParserContext), m ≠ 0x16 →
      ListValue.parse (m :: rest) ctx = .error (.vse (.invalidMarker "List"))) ∧
    (∀ (m : Nat) (rest : List Nat) (ctx : ParserContext), m ≠ 0x19 →
      TypeValue.parse (m :: rest) ctx = .error (.vse (.invalidMarker "Type"))) ∧
    (∀ (m : Nat) (rest : List Nat) (ctx : ParserContext), m ≠ 0x1B →
      UnitValue.parse (m :: rest) ctx = .error (.vse (.invalidMarker "Unit"))) ∧
    (∀ (m : Nat) (rest : List Nat) (ctx : ParserContext), m ≠ 0x1C →
      UnitEmpty.parse (m :: rest) ctx = .error (.vse (.invalidMarker "Unit.Empty"))) ∧
    (∀ (m : Nat) (rest : List Nat) (ctx : ParserContext), m ≠ 0x28 →
      FormattedString.parse (m :: rest) ctx =
        .error (.vse (.invalidMarker "FormattedString"))) ∧
    (∀ (m : Nat) (rest : List Nat) (ctx : ParserContext), m ≠ 0x32 →
      BinaryFormatted.parse (m :: rest) ctx =
        .error (.vse (.invalidMarker "BinaryFormatted"))) ∧
    (∀ (m : Nat) (rest : List Nat) (ctx : ParserContext), m ≠ 0x3C →
      SparseArray.parse (m :: rest) ctx = .error (.vse (.invalidMarker "SparseArray"))) ∧
    (∀ (m : Nat) (rest : List Nat) (ctx : ParserContext),
      Noop.parse (m :: rest) ctx = .ok (.none, rest, ctx)) ∧
    (∀ (m : Nat) (rest : List Nat) (ctx : ParserContext),
      NoneConst.parse (m :: rest) ctx = .ok (.none, rest, ctx)) ∧
    (∀ (m : Nat) (rest : List Nat) (ctx : ParserContext),
      EmptyConst.parse (m :: rest) ctx = .ok (.str "", rest, ctx)) ∧
    (∀ (m : Nat) (rest : List Nat) (ctx : ParserContext),
      ZeroConst.parse (m :: rest) ctx = .ok (.int 0, rest, ctx)) ∧
    (∀ (m : Nat) (rest : List Nat) (ctx : ParserContext),
      TrueConst.parse (m :: rest) ctx = .ok (.bool true, rest, ctx)) ∧
    (∀ (m : Nat) (rest : List Nat) (ctx : ParserContext),
      FalseConst.parse (m :: rest) ctx = .ok (.bool false, rest, ctx)) ∧
    (∀ (m m' : Nat) (rest : List Nat) (ctx : ParserContext),
      DictValue.parse (m :: rest) ctx = DictValue.parse (m' :: rest) ctx) ∧
    (∀ (rest : List Nat) (ctx : ParserContext),
      DictValue.parse (0x99 :: 0x00 :: rest) ctx = .ok (.dict [], rest, ctx)) ∧
    (∀ (t : Nat) (sb : List Nat) (s : String) (r : List Nat) (ctx : ParserContext),
      t ≠ 0x1F → StringValue.parseStr sb = .ok (s, r) →
      IndexedString.parse (t :: sb) ctx = .ok (.str s, r, ctx.add_string s)) := by
  refine ⟨?_, ?_, ?_, ?_, ?_, ?_, ?_, ?_, ?_, ?_, ?_, ?_, ?_, ?_, ?_, ?_, ?_, ?_, ?_,
    ?_, ?_, ?_, ?_, ?_, ?_, ?_, ?_, ?_, ?_, ?_, ?_, ?_, ?_⟩
  · intro rest ctx
    rw [Parser.parse_cons_eq]
    rfl
  · intro m rest ctx rid hreg
    rw [Parser.parse_cons_eq, hreg]
  · intro m rest ctx hm
    simp only [Integer.parse]
    rw [if_pos hm]
  · intro m rest ctx hm
    simp only [ByteValue.parse]
    rw [if_pos hm]
  · intro m rest ctx hm
    simp only [CharValue.parse]
    rw [if_pos hm]
  · intro m rest ctx hm
    simp only [StringValue.parse, StringValue.parseStr]
    rw [if_pos hm]
  · intro m rest ctx hm
    simp only [DateTimeValue.parse]
    rw [if_pos hm]
  · intro m rest ctx hm
    simp only [DoubleValue.parse]
    rw [if_pos hm]
  · intro m rest ctx hm
    simp only [FloatValue.parse]
    rw [if_pos hm]
  · intro m rest ctx hm
    simp only [RGBA.parse]
    rw [if_pos hm]
  · intro m rest ctx hm
    simp only [KnownColor.parse]
    rw [if_pos hm]
  · intro m rest ctx hm
    simp only [EnumValue.parse]
    rw [if_pos hm]
  · intro m rest ctx hm
    simp only [ColorEmpty.parse]
    rw [if_pos hm]
  · intro m rest ctx hm
    simp only [PairValue.parse, PairValue.parseWith]
    rw [if_pos hm]
  · intro m rest ctx hm
    simp only [TripletValue.parse, TripletValue.parseWith]
    rw [if_pos hm]
  · intro m rest ctx hm
    simp only [TypedArray.parse, TypedArray.parseWith]
    rw [if_pos hm]
  · intro m rest ctx hm
    simp only [StringArray.parse]
    rw [if_pos hm]
  · intro m rest ctx hm
    simp only [ListValue.parse, ListValue.parseWith]
    rw [if_pos hm]
  · intro m rest ctx hm
    simp only [TypeValue.parse, TypeValue.parseStr]
    rw [if_pos hm]
  · intro m rest ctx hm
    simp only [UnitValue.parse]
    rw [if_pos hm]
  · intro m rest ctx hm
    simp only [UnitEmpty.parse]
    rw [if_pos hm]
  · intro m rest ctx hm
    simp only [FormattedString.parse, FormattedString.parseWith]
    rw [if_pos hm]
  · intro m rest ctx hm
    simp only [BinaryFormatted.parse]
    rw [if_pos hm]
  · intro m rest ctx hm
    simp only [SparseArray.parse, SparseArray.parseWith]
    rw [if_pos hm]
  · intro m rest ctx
    rfl
  · intro m rest ctx
    rfl
  · intro m rest ctx
    rfl
  · intro m rest ctx
    rfl
  · intro m rest ctx
    rfl
  · intro m rest ctx
    rfl
  · intro m m' rest ctx
    rfl
  · intro rest ctx
    rfl
  · intro t sb s r ctx ht hs
    simp only [IndexedString.parse]
    rw [if_neg ht, hs]

/-- Witness for C7 (amended): an arbitrary wrong first byte makes the rule fail. -/
theorem claim_dispatch_witness :
    Integer.parse [0x63, 0x41] ParserContext.empty =
      .error (.vse (.invalidMarker "Integer")) :=
  claim_dispatch_amended.2.2.1 0x63 [0x41] ParserContext.empty (by norm_num)

/-- C8: a formatted-object production reads a nested value and then a string
production; if the nested value is the null constant the whole production yields
`None`, otherwise it yields the formatted object built from the string; the string
payload is consumed in both cases. -/
theorem claim_formatted_object
    (b b1 b2 : List Nat) (ctx ctx1 : ParserContext) (tv : Value) (s : String)
    (h1 : Parser.parse b ctx = .ok (tv, b1, ctx1))
    (h2 : StringValue.parseStr b1 = .ok (s, b2)) :
    (tv = Value.none →
      FormattedString.parse (0x28 :: b) ctx = .ok (Value.none, b2, ctx1)) ∧
    (tv ≠ Value.none →
      FormattedString.parse (0x28 :: b) ctx =
        .ok (.str ("SerialisedObject(" ++ s ++ ")"), b2, ctx1)) := by
  constructor
  · rintro rfl
    simp [FormattedString.parse, FormattedString.parseWith, h1, h2]
  · intro hne
    cases tv
    case none => exact absurd rfl hne
    all_goals
      simp [FormattedString.parse, FormattedString.parseWith, h1, h2]

/-- Witness for C8: a null type-ref collapses the production to `None`. -/
theorem claim_formatted_object_witness :
    FormattedString.parse [0x28, 0x64, 0x05, 0x01, 0x41] ParserContext.empty =
      .ok (Value.none, [], ParserContext.empty) :=
  (claim_formatted_object [0x64, 0x05, 0x01, 0x41] [0x05, 0x01, 0x41] [] ParserContext.empty
    ParserContext.empty Value.none "A" rfl rfl).1 rfl

/-- C9 (the code fails this claim): there is no recursion guard — nested-pair
streams of every depth `d` decode successfully through the full envelope decoder,
so no fixed maximum nesting depth triggers any distinct error. -/
theorem claim_no_nesting_guard (d : Nat) :
    parse_viewstate (0xFF :: 0x01 :: nestPair d) = .ok ⟨nestVal d, false, nestPair d⟩ := by
  simp only [parse_viewstate]
  rw [if_pos ⟨trivial, trivial⟩]
  have h := nestPair_parse d [] ParserContext.empty
  rw [List.append_nil] at h
  rw [h]
  rfl

end ViewState
